import Mathlib

/-!
# Verification of the PlainLicense build hooks

This development embeds the text-transformation hooks of the PlainLicense
repository (`src/overrides/hooks/`) as executable Lean definitions and proves
or refutes the specification's claims about them.

Strings are modelled as `List Char`.  Python regular expressions used by the
hooks are embedded as bespoke scanners that follow Python's leftmost-first,
backtracking semantics for the concrete pattern in question.  Character
classes (`\w`, `\s`, `\d`) are modelled over ASCII, which covers all inputs
the hooks are applied to.  Scanners recurse on an explicit fuel argument
(instantiated with the input length) so that every definition is executable
by kernel reduction; each scan step consumes at least one character, so the
fuel is always sufficient, which the fuel-irrelevance lemmas below make
precise.
-/

namespace PlainLicense

/-- Python `\w` (word character), modelled over ASCII: letters, digits, underscore. -/
def isPyWord (c : Char) : Bool := c.isAlphanum || c = '_'

/-- Python `\s` (whitespace), modelled over ASCII. -/
def isPySpace (c : Char) : Bool :=
  c = ' ' || c = '\t' || c = '\n' || c = '\r' || c = '\x0b' || c = '\x0c'

/-- Consume the exact character sequence `pat` from the front of `l`
(a literal piece of a regex, or of a Python string comparison). -/
def eatStr : List Char → List Char → Option (List Char)
  | [], l => some l
  | _ :: _, [] => none
  | p :: ps, c :: cs => if c = p then eatStr ps cs else none

/-- Consume exactly `k` whitespace characters (one alternative of a bounded
`\s`-repetition). -/
def eatWs : Nat → List Char → Option (List Char)
  | 0, l => some l
  | _ + 1, [] => none
  | k + 1, c :: cs => if isPySpace c then eatWs k cs else none

/-- Greedy bounded whitespace repetition `\s{lo,hi}` with backtracking into the
continuation `cont`: the repetition count is tried from `hi` down to `lo`,
exactly as Python's backtracking engine does for a greedy bounded repeat. -/
def tryWsDown (cont : List Char → Option (List Char)) (lo : Nat) :
    Nat → List Char → Option (List Char)
  | 0, l => if lo = 0 then cont l else none
  | k + 1, l =>
    if k + 1 < lo then none
    else
      match (eatWs (k + 1) l).bind cont with
      | some r => some r
      | none => tryWsDown cont lo k l

/-- One attempted match of `LicenseContent._year_pattern`
(`license_factory.py` line 258: `\{\{\s{1,2}year\s{1,2}\}\}`) at the head of
`l`; on success, returns the text after the match. -/
def matchYearAt (l : List Char) : Option (List Char) :=
  (eatStr ['\x7b', '\x7b'] l).bind fun l1 =>
    tryWsDown
      (fun l2 =>
        (eatStr ['y', 'e', 'a', 'r'] l2).bind fun l3 =>
          tryWsDown (fun l4 => eatStr ['\x7d', '\x7d'] l4) 1 2 l3)
      1 2 l1

/-- The scan loop of `re.sub` for `_year_pattern`: at each position, if the
pattern matches, emit the replacement `year` and continue after the match,
otherwise keep the character.  Fuel-indexed; `fuel = length` suffices. -/
def yearSubAux (year : List Char) : Nat → List Char → List Char
  | 0, l => l
  | _ + 1, [] => []
  | fuel + 1, c :: cs =>
    match matchYearAt (c :: cs) with
    | some rest => year ++ yearSubAux year fuel rest
    | none => c :: yearSubAux year fuel cs

/-- `re.sub` of `_year_pattern` over a character list. -/
def yearSubList (year : List Char) (l : List Char) : List Char :=
  yearSubAux year l.length l

/-- `LicenseContent.replace_year` (`license_factory.py` lines 439-449):
substitutes `year` for every `_year_pattern` match in `text`. -/
def replace_year (year : String) (text : String) : String :=
  ⟨yearSubList year.data text.data⟩

/-- Does some suffix of `l` start with a `_year_pattern` match?  (I.e. would
`re.search` find the 1-2-space year placeholder in `l`?) -/
def hasYearMatch : List Char → Bool
  | [] => false
  | c :: cs => (matchYearAt (c :: cs)).isSome || hasYearMatch cs

/-- Modelled from the spec: a year placeholder is "a double-braced 'year'
token, regardless of interior spacing" — `\{\{\s*year\s*\}\}`.  Attempted
match at the head of `l`.  (Since `y` and the closing brace are not
whitespace, the maximal-munch `\s*` needs no backtracking here.) -/
def matchYearSpecAt (l : List Char) : Option (List Char) :=
  (eatStr ['\x7b', '\x7b'] l).bind fun l1 =>
    (eatStr ['y', 'e', 'a', 'r'] (l1.dropWhile isPySpace)).bind fun l3 =>
      eatStr ['\x7d', '\x7d'] (l3.dropWhile isPySpace)

/-- Modelled from the spec: does the text contain a year placeholder with any
interior spacing? -/
def hasYearPlaceholderSpec : List Char → Bool
  | [] => false
  | c :: cs => (matchYearSpecAt (c :: cs)).isSome || hasYearPlaceholderSpec cs

/-- The shape of a `_year_pattern` match: braces, 1-2 whitespace, `year`,
1-2 whitespace, braces. -/
def yearPat (w1 w2 : List Char) : List Char :=
  '\x7b' :: '\x7b' :: (w1 ++ ('y' :: 'e' :: 'a' :: 'r' :: (w2 ++ ['\x7d', '\x7d'])))

theorem eatStr_eq_some {p : List Char} : ∀ {l r : List Char},
    eatStr p l = some r ↔ l = p ++ r := by
  induction p with
  | nil => intro l r; simp [eatStr]
  | cons x xs ih =>
    intro l r
    cases l with
    | nil => simp [eatStr]
    | cons c cs =>
      by_cases h : c = x
      · subst h; simp [eatStr, ih]
      · simp [eatStr, h]

theorem eatWs_some : ∀ {k : Nat} {l r : List Char}, eatWs k l = some r →
    ∃ w, w.length = k ∧ (∀ c ∈ w, isPySpace c = true) ∧ l = w ++ r := by
  intro k
  induction k with
  | zero =>
    intro l r h
    exact ⟨[], rfl, by simp, by simpa [eatWs] using h⟩
  | succ k ih =>
    intro l r h
    cases l with
    | nil => simp [eatWs] at h
    | cons c cs =>
      by_cases hc : isPySpace c = true
      · simp only [eatWs, hc, if_pos] at h
        obtain ⟨w, hw1, hw2, hw3⟩ := ih h
        refine ⟨c :: w, by simp [hw1], ?_, by simp [hw3]⟩
        intro d hd
        rcases List.mem_cons.mp hd with rfl | hd
        · exact hc
        · exact hw2 d hd
      · simp [eatWs, hc] at h

theorem eatWs_append {w r : List Char} (hw : ∀ c ∈ w, isPySpace c = true) :
    eatWs w.length (w ++ r) = some r := by
  induction w with
  | nil => simp [eatWs]
  | cons c cs ih =>
    have hc : isPySpace c = true := hw c (by simp)
    simp only [List.length_cons, List.cons_append, eatWs, hc, if_pos]
    exact ih fun d hd => hw d (by simp [hd])

theorem tryWsDown_some {cont : List Char → Option (List Char)} {lo : Nat} :
    ∀ {hi : Nat} {l r : List Char}, tryWsDown cont lo hi l = some r →
    ∃ w l', lo ≤ w.length ∧ w.length ≤ hi ∧ (∀ c ∈ w, isPySpace c = true) ∧
      l = w ++ l' ∧ cont l' = some r := by
  intro hi
  induction hi with
  | zero =>
    intro l r h
    by_cases hlo : lo = 0
    · subst hlo
      have h' : cont l = some r := h
      exact ⟨[], l, le_refl _, le_refl _, by simp, rfl, h'⟩
    · have h' : (none : Option (List Char)) = some r := by
        simpa [tryWsDown, hlo] using h
      simp at h'
  | succ k ih =>
    intro l r h
    by_cases hlt : k + 1 < lo
    · have h' : (none : Option (List Char)) = some r := by
        simpa [tryWsDown, hlt] using h
      simp at h'
    · have h' : (match (eatWs (k + 1) l).bind cont with
        | some r' => some r'
        | none => tryWsDown cont lo k l) = some r := by
        simpa [tryWsDown, hlt] using h
      cases hbind : (eatWs (k + 1) l).bind cont with
      | some r' =>
        rw [hbind] at h'
        simp only [Option.some.injEq] at h'
        subst h'
        cases hws : eatWs (k + 1) l with
        | none => rw [hws] at hbind; simp at hbind
        | some l1 =>
          rw [hws, Option.some_bind] at hbind
          obtain ⟨w, hw1, hw2, hw3⟩ := eatWs_some hws
          exact ⟨w, l1, by omega, by omega, hw2, hw3, hbind⟩
      | none =>
        rw [hbind] at h'
        obtain ⟨w, l', h1, h2, h3, h4, h5⟩ := ih h'
        exact ⟨w, l', h1, by omega, h3, h4, h5⟩

theorem tryWsDown_isSome {cont : List Char → Option (List Char)} {lo : Nat}
    {w l' : List Char} (hw : ∀ c ∈ w, isPySpace c = true) :
    ∀ {hi : Nat}, lo ≤ w.length → w.length ≤ hi → (cont l').isSome →
    (tryWsDown cont lo hi (w ++ l')).isSome := by
  intro hi
  induction hi with
  | zero =>
    intro h1 h2 h3
    have hw0 : w = [] := List.length_eq_zero.mp (by omega)
    subst hw0
    have hlo : lo = 0 := by omega
    subst hlo
    exact h3
  | succ k ih =>
    intro h1 h2 h3
    have hnlt : ¬ (k + 1 < lo) := by omega
    have hstep : tryWsDown cont lo (k + 1) (w ++ l') =
        match (eatWs (k + 1) (w ++ l')).bind cont with
        | some r => some r
        | none => tryWsDown cont lo k (w ++ l') := by
      simp [tryWsDown, hnlt]
    rw [hstep]
    cases hbind : (eatWs (k + 1) (w ++ l')).bind cont with
    | some r => simp
    | none =>
      by_cases hlen : w.length = k + 1
      · exfalso
        have hws : eatWs (k + 1) (w ++ l') = some l' := by
          rw [← hlen]; exact eatWs_append hw
        rw [hws, Option.some_bind] at hbind
        rw [Option.isSome_iff_exists] at h3
        obtain ⟨v, hv⟩ := h3
        rw [hv] at hbind
        exact absurd hbind (by simp)
      · exact ih h1 (by omega) h3

theorem matchYearAt_shape {l r : List Char} (h : matchYearAt l = some r) :
    ∃ w1 w2, 1 ≤ w1.length ∧ w1.length ≤ 2 ∧ 1 ≤ w2.length ∧ w2.length ≤ 2 ∧
      (∀ c ∈ w1, isPySpace c = true) ∧ (∀ c ∈ w2, isPySpace c = true) ∧
      l = yearPat w1 w2 ++ r := by
  unfold matchYearAt at h
  cases hb : eatStr ['\x7b', '\x7b'] l with
  | none => rw [hb] at h; simp at h
  | some l1 =>
    rw [hb, Option.some_bind] at h
    obtain ⟨w1, l2, h11, h12, h13, h14, h15⟩ := tryWsDown_some h
    cases hy : eatStr ['y', 'e', 'a', 'r'] l2 with
    | none => rw [hy] at h15; simp at h15
    | some l3 =>
      rw [hy, Option.some_bind] at h15
      obtain ⟨w2, l4, h21, h22, h23, h24, h25⟩ := tryWsDown_some h15
      have hbl : l = ['\x7b', '\x7b'] ++ l1 := eatStr_eq_some.mp hb
      have hyl : l2 = ['y', 'e', 'a', 'r'] ++ l3 := eatStr_eq_some.mp hy
      have hcl : l4 = ['\x7d', '\x7d'] ++ r := eatStr_eq_some.mp h25
      refine ⟨w1, w2, h11, h12, h21, h22, h13, h23, ?_⟩
      subst hcl h24
      subst hyl h14
      subst hbl
      simp [yearPat]

theorem matchYearAt_isSome {w1 w2 s : List Char}
    (h11 : 1 ≤ w1.length) (h12 : w1.length ≤ 2)
    (h21 : 1 ≤ w2.length) (h22 : w2.length ≤ 2)
    (hw1 : ∀ c ∈ w1, isPySpace c = true) (hw2 : ∀ c ∈ w2, isPySpace c = true) :
    (matchYearAt (yearPat w1 w2 ++ s)).isSome := by
  unfold matchYearAt
  have hb : eatStr ['\x7b', '\x7b'] (yearPat w1 w2 ++ s) =
      some (w1 ++ (('y' :: 'e' :: 'a' :: 'r' :: (w2 ++ ['\x7d', '\x7d'])) ++ s)) := by
    apply eatStr_eq_some.mpr
    simp [yearPat]
  rw [hb, Option.some_bind]
  apply tryWsDown_isSome hw1 h11 h12
  have hy : eatStr ['y', 'e', 'a', 'r']
      (('y' :: 'e' :: 'a' :: 'r' :: (w2 ++ ['\x7d', '\x7d'])) ++ s) =
      some (w2 ++ (['\x7d', '\x7d'] ++ s)) := by
    apply eatStr_eq_some.mpr
    simp
  rw [hy, Option.some_bind]
  apply tryWsDown_isSome hw2 h21 h22
  have hz : eatStr ['\x7d', '\x7d'] (['\x7d', '\x7d'] ++ s) = some s :=
    eatStr_eq_some.mpr rfl
  rw [hz]
  simp

theorem matchYearAt_length {l r : List Char} (h : matchYearAt l = some r) :
    r.length + 10 ≤ l.length := by
  obtain ⟨w1, w2, h11, _, h21, _, _, _, hl⟩ := matchYearAt_shape h
  subst hl
  simp only [yearPat, List.length_append, List.length_cons]
  omega

theorem yearSubAux_congr (y : List Char) :
    ∀ n₁ : Nat, ∀ {n₂ : Nat} {l : List Char}, l.length ≤ n₁ → l.length ≤ n₂ →
    yearSubAux y n₁ l = yearSubAux y n₂ l := by
  intro n₁
  induction n₁ with
  | zero =>
    intro n₂ l h1 _
    have : l = [] := List.length_eq_zero.mp (by omega)
    subst this
    cases n₂ <;> simp [yearSubAux]
  | succ k ih =>
    intro n₂ l h1 h2
    cases l with
    | nil => cases n₂ <;> simp [yearSubAux]
    | cons c cs =>
      cases n₂ with
      | zero => simp at h2
      | succ m =>
        simp only [List.length_cons] at h1 h2
        cases hm : matchYearAt (c :: cs) with
        | some rest =>
          have hlen := matchYearAt_length hm
          simp only [List.length_cons] at hlen
          show (match matchYearAt (c :: cs) with
            | some rest => y ++ yearSubAux y k rest
            | none => c :: yearSubAux y k cs) =
            (match matchYearAt (c :: cs) with
            | some rest => y ++ yearSubAux y m rest
            | none => c :: yearSubAux y m cs)
          rw [hm]
          show y ++ yearSubAux y k rest = y ++ yearSubAux y m rest
          rw [@ih m rest (by omega) (by omega)]
        | none =>
          show (match matchYearAt (c :: cs) with
            | some rest => y ++ yearSubAux y k rest
            | none => c :: yearSubAux y k cs) =
            (match matchYearAt (c :: cs) with
            | some rest => y ++ yearSubAux y m rest
            | none => c :: yearSubAux y m cs)
          rw [hm]
          show c :: yearSubAux y k cs = c :: yearSubAux y m cs
          rw [@ih m cs (by omega) (by omega)]

theorem yearSubList_nil (y : List Char) : yearSubList y [] = [] := rfl

theorem yearSubList_cons_match {c : Char} {cs rest : List Char} (y : List Char)
    (h : matchYearAt (c :: cs) = some rest) :
    yearSubList y (c :: cs) = y ++ yearSubList y rest := by
  have hstep : yearSubList y (c :: cs) =
      (match matchYearAt (c :: cs) with
      | some rest => y ++ yearSubAux y cs.length rest
      | none => c :: yearSubAux y cs.length cs) := rfl
  rw [hstep, h]
  have hlen := matchYearAt_length h
  simp only [List.length_cons] at hlen
  show y ++ yearSubAux y cs.length rest = y ++ yearSubAux y rest.length rest
  rw [yearSubAux_congr y cs.length (by omega) (le_refl _)]

theorem yearSubList_cons_skip {c : Char} {cs : List Char} (y : List Char)
    (h : matchYearAt (c :: cs) = none) :
    yearSubList y (c :: cs) = c :: yearSubList y cs := by
  have hstep : yearSubList y (c :: cs) =
      (match matchYearAt (c :: cs) with
      | some rest => y ++ yearSubAux y cs.length rest
      | none => c :: yearSubAux y cs.length cs) := rfl
  rw [hstep, h]
  rfl

theorem isPySpace_not_digit {c : Char} (h : isPySpace c = true) : c.isDigit = false := by
  simp only [isPySpace, Bool.or_eq_true, decide_eq_true_eq] at h
  rcases h with ((((rfl | rfl) | rfl) | rfl) | rfl) | rfl <;> decide

theorem yearPat_no_digit {w1 w2 : List Char}
    (hw1 : ∀ c ∈ w1, isPySpace c = true) (hw2 : ∀ c ∈ w2, isPySpace c = true) :
    ∀ c ∈ yearPat w1 w2, c.isDigit = false := by
  simp only [yearPat]
  refine List.forall_mem_cons.mpr ⟨by decide, ?_⟩
  refine List.forall_mem_cons.mpr ⟨by decide, ?_⟩
  refine List.forall_mem_append.mpr
    ⟨fun c hc => isPySpace_not_digit (hw1 c hc), ?_⟩
  refine List.forall_mem_cons.mpr ⟨by decide, ?_⟩
  refine List.forall_mem_cons.mpr ⟨by decide, ?_⟩
  refine List.forall_mem_cons.mpr ⟨by decide, ?_⟩
  refine List.forall_mem_cons.mpr ⟨by decide, ?_⟩
  refine List.forall_mem_append.mpr
    ⟨fun c hc => isPySpace_not_digit (hw2 c hc), ?_⟩
  decide

/-- A placeholder-shaped (digit-free) prefix of the substituted text is
already a prefix of the input: the replacement year is all digits, so such a
prefix cannot overlap any replaced region. -/
theorem yearSub_no_digit_pre (y : List Char) (hne : y ≠ [])
    (hd : ∀ c ∈ y, c.isDigit = true) :
    ∀ n : Nat, ∀ l m t : List Char, l.length ≤ n →
    (∀ c ∈ m, c.isDigit = false) → m ++ t = yearSubList y l →
    ∃ t', m ++ t' = l := by
  intro n
  induction n with
  | zero =>
    intro l m t hlen _ heq
    have hl : l = [] := List.length_eq_zero.mp (by omega)
    subst hl
    rw [yearSubList_nil] at heq
    have hm : m = [] := by
      cases m with
      | nil => rfl
      | cons a as => simp at heq
    subst hm
    exact ⟨[], rfl⟩
  | succ n ih =>
    intro l m t hlen hm heq
    cases l with
    | nil =>
      rw [yearSubList_nil] at heq
      have hm0 : m = [] := by
        cases m with
        | nil => rfl
        | cons a as => simp at heq
      subst hm0
      exact ⟨[], rfl⟩
    | cons c cs =>
      cases hmt : matchYearAt (c :: cs) with
      | some rest =>
        rw [yearSubList_cons_match y hmt] at heq
        cases m with
        | nil => exact ⟨c :: cs, rfl⟩
        | cons a as =>
          exfalso
          cases y with
          | nil => exact hne rfl
          | cons d ds =>
            have ha : a = d := by
              have h' := congrArg List.headI heq
              simpa using h'
            have hadig : a.isDigit = false := hm a (by simp)
            have hddig : d.isDigit = true := hd d (by simp)
            rw [ha, hddig] at hadig
            simp at hadig
      | none =>
        rw [yearSubList_cons_skip y hmt] at heq
        cases m with
        | nil => exact ⟨c :: cs, rfl⟩
        | cons a as =>
          have hac : a = c := by
            have h' := congrArg List.headI heq
            simpa using h'
          have htl : as ++ t = yearSubList y cs := by
            have h' := congrArg List.tail heq
            simpa using h'
          obtain ⟨t', ht'⟩ := ih cs as t
            (by simp only [List.length_cons] at hlen; omega)
            (fun d hdm => hm d (by simp [hdm])) htl
          exact ⟨t', by rw [hac, ← ht']; rfl⟩

theorem hasYearMatch_append_digits {y z : List Char}
    (hd : ∀ c ∈ y, c.isDigit = true) :
    hasYearMatch (y ++ z) = hasYearMatch z := by
  induction y with
  | nil => simp
  | cons d ds ih =>
    have hdd : d.isDigit = true := hd d (by simp)
    have hne : ¬ (d = '\x7b') := by
      intro h
      rw [h] at hdd
      exact absurd hdd (by decide)
    have hfail : matchYearAt (d :: (ds ++ z)) = none := by
      unfold matchYearAt
      have hes : eatStr ['\x7b', '\x7b'] (d :: (ds ++ z)) = none := by
        simp [eatStr, hne]
      rw [hes]
      rfl
    have hstep : hasYearMatch ((d :: ds) ++ z) =
        ((matchYearAt (d :: (ds ++ z))).isSome || hasYearMatch (ds ++ z)) := rfl
    rw [hstep, hfail]
    simp only [Option.isSome_none, Bool.false_or]
    exact ih fun c hc => hd c (by simp [hc])

/-- After substituting an all-digit year, no 1-2-space year placeholder
remains anywhere in the text. -/
theorem yearSub_no_residual (y : List Char) (hne : y ≠ [])
    (hd : ∀ c ∈ y, c.isDigit = true) :
    ∀ n : Nat, ∀ l : List Char, l.length ≤ n →
    hasYearMatch (yearSubList y l) = false := by
  intro n
  induction n with
  | zero =>
    intro l hlen
    have hl : l = [] := List.length_eq_zero.mp (by omega)
    subst hl
    rw [yearSubList_nil]
    rfl
  | succ n ih =>
    intro l hlen
    cases l with
    | nil => rw [yearSubList_nil]; rfl
    | cons c cs =>
      cases hmt : matchYearAt (c :: cs) with
      | some rest =>
        rw [yearSubList_cons_match y hmt]
        have hrl := matchYearAt_length hmt
        simp only [List.length_cons] at hlen hrl
        rw [hasYearMatch_append_digits hd]
        exact ih rest (by omega)
      | none =>
        rw [yearSubList_cons_skip y hmt]
        have htail : hasYearMatch (yearSubList y cs) = false := by
          simp only [List.length_cons] at hlen
          exact ih cs (by omega)
        simp only [hasYearMatch, htail, Bool.or_false]
        by_contra hsome
        rw [Bool.not_eq_false, Option.isSome_iff_exists] at hsome
        obtain ⟨r, hr⟩ := hsome
        obtain ⟨w1, w2, h11, h12, h21, h22, hws1, hws2, hshape⟩ :=
          matchYearAt_shape hr
        obtain ⟨t', ht'⟩ := yearSub_no_digit_pre y hne hd (c :: cs).length
          (c :: cs) (yearPat w1 w2) r (le_refl _)
          (yearPat_no_digit hws1 hws2)
          (by rw [← hshape, ← yearSubList_cons_skip y hmt])
        have hsm : (matchYearAt (c :: cs)).isSome := by
          rw [← ht']
          exact matchYearAt_isSome h11 h12 h21 h22 hws1 hws2
        rw [hmt] at hsm
        simp at hsm

/-- C2 counterexample: the claim says every double-braced year token is
replaced "regardless of interior spacing", but `_year_pattern` requires one
or two whitespace characters on each side of `year`.  On the concrete input
`\x7b\x7byear\x7d\x7d` (no interior spacing), `replace_year` returns the text
unchanged and a year placeholder (in the spec's any-spacing sense) remains. -/
theorem C2_year_counterexample :
    replace_year "2026" ⟨['\x7b', '\x7b', 'y', 'e', 'a', 'r', '\x7d', '\x7d']⟩ =
      ⟨['\x7b', '\x7b', 'y', 'e', 'a', 'r', '\x7d', '\x7d']⟩ ∧
    hasYearPlaceholderSpec
      (replace_year "2026" ⟨['\x7b', '\x7b', 'y', 'e', 'a', 'r', '\x7d', '\x7d']⟩).data =
      true := by
  constructor
  · rfl
  · rfl

/-- C2 (amended): `replace_year` replaces exactly the year placeholders
written with one or two whitespace characters on each side of `year`
(`_year_pattern`).  For an all-digit year string, no such placeholder
remains anywhere in the output; a placeholder with no interior whitespace
(or more than two) is not matched and may remain. -/
theorem C2_year_replacement (y : String) (hne : y.data ≠ [])
    (hd : ∀ c ∈ y.data, c.isDigit = true) (text : String) :
    hasYearMatch (replace_year y text).data = false ∧
    replace_year y
      ⟨['\x7b', '\x7b', ' ', 'y', 'e', 'a', 'r', ' ', '\x7d', '\x7d']⟩ = y := by
  constructor
  · exact yearSub_no_residual y.data hne hd text.data.length text.data (le_refl _)
  · have h1 : matchYearAt
        ['\x7b', '\x7b', ' ', 'y', 'e', 'a', 'r', ' ', '\x7d', '\x7d'] =
        some [] := rfl
    show String.mk (yearSubList y.data
      ['\x7b', '\x7b', ' ', 'y', 'e', 'a', 'r', ' ', '\x7d', '\x7d']) = y
    rw [yearSubList_cons_match y.data h1, yearSubList_nil]
    cases y with
    | mk d => simp

/-- C2 witness: the amended theorem applied at the concrete year `2026` and a
concrete text containing a one-space placeholder. -/
theorem C2_year_witness :
    ("2026".data ≠ [] ∧ ∀ c ∈ "2026".data, c.isDigit = true) ∧
    (hasYearMatch (replace_year "2026" "pre \x7b\x7b year \x7d\x7d post").data
        = false ∧
      replace_year "2026"
        ⟨['\x7b', '\x7b', ' ', 'y', 'e', 'a', 'r', ' ', '\x7d', '\x7d']⟩ =
        "2026") :=
  ⟨⟨by decide, by decide⟩,
    C2_year_replacement "2026" (by decide) (by decide)
      "pre \x7b\x7b year \x7d\x7d post"⟩

/-- Generalized bounded greedy repetition (as `tryWsDown`, but the
continuation may return captures). -/
def tryWsDownCap {α : Type} (cont : List Char → Option α) (lo : Nat) :
    Nat → List Char → Option α
  | 0, l => if lo = 0 then cont l else none
  | k + 1, l =>
    if k + 1 < lo then none
    else
      match (eatWs (k + 1) l).bind cont with
      | some r => some r
      | none => tryWsDownCap cont lo k l

/-- The annotation body `(?P<annotation>.+?)\n` (DOTALL, lazy): the shortest
non-empty prefix that is followed by a newline; returns the captured group
and the rest after the newline. -/
def annBody : Nat → List Char → Option (List Char × List Char)
  | 0, _ => none
  | _ + 1, [] => none
  | fuel + 1, c :: cs =>
    match cs with
    | '\n' :: cs' => some ([c], cs')
    | _ =>
      match annBody fuel cs with
      | some (a, rest) => some (c :: a, rest)
      | none => none

/-- `[123]\.\s{1,2}(?P<annotation>.+?)\n` — the numbered annotation line that
follows the annotate marker. -/
def annNumbered (fuel : Nat) (l : List Char) : Option (List Char × List Char) :=
  match l with
  | d :: '.' :: rest =>
    if d = '1' || d = '2' || d = '3' then
      tryWsDownCap (fun l2 => annBody fuel l2) 1 2 rest
    else none
  | _ => none

/-- `\{\s\.annotate\s\}` — the annotate class marker (single whitespace on
each side of `.annotate`). -/
def eatAnnMarker (l : List Char) : Option (List Char) :=
  match l with
  | '\x7b' :: c1 :: rest =>
    if isPySpace c1 then
      match eatStr ['.', 'a', 'n', 'n', 'o', 't', 'a', 't', 'e'] rest with
      | some (c2 :: '\x7d' :: r) => if isPySpace c2 then some r else none
      | _ => none
    else none
  | _ => none

/-- The lazy gap `.*?` (DOTALL) before the annotate marker, with the rest of
the pattern (`\{\s\.annotate\s\}[\n\s]{1,4}[123]\.\s{1,2}(?P<annotation>.+?)\n`)
as continuation: gap lengths are tried shortest-first, and the bounded
whitespace runs greedily with backtracking, mirroring Python's engine. -/
def annAfterCitation : Nat → List Char → Option (List Char × List Char)
  | 0, _ => none
  | fuel + 1, l =>
    match (eatAnnMarker l).bind
        (fun l2 => tryWsDownCap (fun l3 => annNumbered fuel l3) 1 4 l2) with
    | some r => some r
    | none =>
      match l with
      | [] => none
      | _ :: rest => annAfterCitation fuel rest

/-- One attempted match of `LicenseContent._annotation_pattern`
(`license_factory.py` lines 265-268) at the head of `l`.  Returns the
captured annotation group and the rest of the text after the match. -/
def matchAnnAt (fuel : Nat) (l : List Char) : Option (List Char × List Char) :=
  match l with
  | '(' :: d :: ')' :: rest =>
    if d = '1' || d = '2' || d = '3' then annAfterCitation fuel rest
    else none
  | _ => none

/-- A piece of the `re.sub` decomposition of a text under
`_annotation_pattern`: either a character that is not part of any match, or
one match, represented by its captured annotation group. -/
inductive APiece where
  | lit : Char → APiece
  | ann : List Char → APiece
deriving DecidableEq, Repr

/-- The `re.sub` scan for `_annotation_pattern`: leftmost matches, continuing
after each match.  Fuel-indexed; every step consumes at least one character,
so `fuel = length` suffices. -/
def annScanAux : Nat → List Char → List APiece
  | 0, _ => []
  | _ + 1, [] => []
  | fuel + 1, c :: cs =>
    match matchAnnAt (c :: cs).length (c :: cs) with
    | some (a, rest) => .ann a :: annScanAux fuel rest
    | none => .lit c :: annScanAux fuel cs

/-- The decomposition of a text into literal characters and annotation
matches, as traversed by `re.sub` in `transform_text_to_footnotes`. -/
def annScan (l : List Char) : List APiece :=
  annScanAux l.length l

/-- Python `str.strip()`: remove leading and trailing whitespace. -/
def pyStrip (l : List Char) : List Char :=
  ((l.dropWhile isPySpace).reverse.dropWhile isPySpace).reverse

/-- The footnote reference emitted by the replacement closure:
`f"[^{footnote_num}]"`. -/
def footRef (k : Nat) : List Char :=
  '[' :: '^' :: ((Nat.repr k).data ++ [']'])

/-- One footnote reference definition: `f"[^{i}]: {footnote}\n\n"`. -/
def footDef (k : Nat) (f : List Char) : List Char :=
  footRef k ++ ':' :: ' ' :: (f ++ ['\n', '\n'])

/-- One step of the replacement closure of `transform_text_to_footnotes`:
a literal character is copied; a match is replaced by a reference numbered
`len(footnotes) + 1`, and its stripped annotation is appended to the
footnote list. -/
def annStep (acc : List Char × List (List Char)) (p : APiece) :
    List Char × List (List Char) :=
  match p with
  | .lit c => (acc.1 ++ [c], acc.2)
  | .ann a => (acc.1 ++ footRef (acc.2.length + 1), acc.2 ++ [pyStrip a])

/-- `LicenseContent.transform_text_to_footnotes` (`license_factory.py` lines
405-437), list level: substitute each `_annotation_pattern` match by a
footnote reference; if any footnotes were collected, append a blank line and
one reference definition per footnote; finally append a blank line. -/
def transform_footnotes_core (text : List Char) : List Char :=
  let res := (annScan text).foldl annStep ([], [])
  let withDefs :=
    if res.2.isEmpty then res.1
    else res.1 ++ ['\n', '\n'] ++
      (res.2.enum.map (fun p => footDef (p.1 + 1) p.2)).flatten
  withDefs ++ ['\n', '\n']

/-- String-level wrapper for `transform_text_to_footnotes`. -/
def transform_text_to_footnotes (text : String) : String :=
  ⟨transform_footnotes_core text.data⟩

/-- The stripped annotation texts of the matches of a decomposition, in
order of occurrence. -/
def annsOf (ps : List APiece) : List (List Char) :=
  ps.filterMap fun p =>
    match p with
    | .ann a => some (pyStrip a)
    | .lit _ => none

/-- Modelled from the spec's words: the substituted body in which the k-th
annotation match (counting from `k0`) is replaced by the footnote reference
`[^k]`, so that references are numbered sequentially in order of
occurrence. -/
def specBody : List APiece → Nat → List Char
  | [], _ => []
  | .lit c :: ps, k => c :: specBody ps k
  | .ann _ :: ps, k => footRef k ++ specBody ps (k + 1)

theorem annFold_spec : ∀ (ps : List APiece) (acc : List Char)
    (fns : List (List Char)),
    ps.foldl annStep (acc, fns) =
      (acc ++ specBody ps (fns.length + 1), fns ++ annsOf ps) := by
  intro ps
  induction ps with
  | nil => intro acc fns; simp [specBody, annsOf]
  | cons p ps ih =>
    intro acc fns
    cases p with
    | lit c =>
      simp only [List.foldl_cons, annStep]
      rw [ih]
      simp [specBody, annsOf, List.filterMap_cons]
    | ann a =>
      simp only [List.foldl_cons, annStep]
      rw [ih]
      simp [specBody, annsOf, List.filterMap_cons, List.append_assoc]

theorem annDefs_enumFrom : ∀ (fns : List (List Char)) (k : Nat),
    (fns.enumFrom k).map (fun p => footDef (p.1 + 1) p.2) =
      ((List.range' (k + 1) fns.length).zip fns).map
        (fun p => footDef p.1 p.2) := by
  intro fns
  induction fns with
  | nil => intro k; simp
  | cons f fs ih =>
    intro k
    simp only [List.enumFrom, List.map_cons, List.length_cons,
      List.range'_succ, List.zip_cons_cons]
    rw [ih (k + 1)]

/-- C1 (confirmed): `transform_text_to_footnotes` replaces the k-th matched
annotation block (in order of occurrence) with the footnote reference
`[^k]`, numbering sequentially from 1, and appends, for each reference
number `i` from 1 to n in order, exactly one definition `[^i]: t` whose text
is the stripped annotation of the i-th match — followed by the closing blank
line the code always appends. -/
theorem C1_footnote_transform (text : String) :
    transform_text_to_footnotes text =
      ⟨specBody (annScan text.data) 1 ++
        ((if (annsOf (annScan text.data)).isEmpty then []
          else ['\n', '\n'] ++
            (((List.range' 1 (annsOf (annScan text.data)).length).zip
                (annsOf (annScan text.data))).map
              (fun p => footDef p.1 p.2)).flatten) ++
          ['\n', '\n'])⟩ := by
  have h := annFold_spec (annScan text.data) [] []
  simp only [List.nil_append, List.length_nil, Nat.zero_add] at h
  unfold transform_text_to_footnotes transform_footnotes_core
  rw [h]
  cases hemp : (annsOf (annScan text.data)).isEmpty with
  | true => simp [hemp]
  | false =>
    simp only [hemp, Bool.false_eq_true, if_neg, not_false_iff]
    have henum : (annsOf (annScan text.data)).enum =
        (annsOf (annScan text.data)).enumFrom 0 := rfl
    rw [henum, annDefs_enumFrom (annsOf (annScan text.data)) 0]
    simp [List.append_assoc]

/-- Word-or-whitespace character — the class `[\w\s]` used by
`_definition_pattern`. -/
def isWordSpace (c : Char) : Bool := isPyWord c || isPySpace c

/-- Python `str.split('\n')`. -/
def splitNl : List Char → List (List Char)
  | [] => [[]]
  | c :: rest =>
    if c = '\n' then [] :: splitNl rest
    else
      match splitNl rest with
      | [] => [[c]]
      | l :: ls => (c :: l) :: ls

/-- A line consisting solely of spaces/tabs (the `^[ \t]+$` lines that
`textwrap.dedent` empties). -/
def isBlankLine (l : List Char) : Bool :=
  !l.isEmpty && l.all fun c => c = ' ' || c = '\t'

/-- The leading space/tab run of a line. -/
def lineIndent (l : List Char) : List Char :=
  l.takeWhile fun c => c = ' ' || c = '\t'

/-- Longest common prefix of two character lists (the margin-merging step of
`textwrap.dedent`). -/
def commonPre : List Char → List Char → List Char
  | [], _ => []
  | _, [] => []
  | x :: xs, y :: ys => if x = y then x :: commonPre xs ys else []

/-- `textwrap.dedent` (CPython 3.12 semantics): lines consisting solely of
spaces/tabs are emptied; the margin is the longest common prefix of the
leading space/tab runs of the remaining non-empty lines; if non-empty, the
margin is removed from the start of every line that begins with it. -/
def dedent (l : List Char) : List Char :=
  let ls := (splitNl l).map fun ln => if isBlankLine ln then [] else ln
  let indents := (ls.filter fun ln => !ln.isEmpty).map lineIndent
  let margin :=
    match indents with
    | [] => ([] : List Char)
    | i :: is => is.foldl commonPre i
  let stripped :=
    if margin.isEmpty then ls
    else ls.map fun ln =>
      if margin.isPrefixOf ln then ln.drop margin.length else ln
  List.intercalate ['\n'] stripped

/-- Python `str.replace(old, new)` scan: all non-overlapping occurrences,
left to right.  Fuel-indexed; each step consumes at least one character. -/
def strReplaceAux (old new : List Char) : Nat → List Char → List Char
  | 0, l => l
  | _ + 1, [] => []
  | fuel + 1, c :: cs =>
    match eatStr old (c :: cs) with
    | some rest => new ++ strReplaceAux old new fuel rest
    | none => c :: strReplaceAux old new fuel cs

/-- Python `str.replace(old, new)` (for non-empty `old`; with empty `old`
the hooks never call it). -/
def strReplace (l old new : List Char) : List Char :=
  if old.isEmpty then l else strReplaceAux old new l.length l

/-- The `\s*?\n{1,2}[:]` part of `_definition_pattern`: lazily skip
whitespace until one or two newlines followed by a colon (two newlines
preferred, as the bounded repeat is greedy); no two distinct colon positions
can satisfy this, since `\s*?` cannot cross a colon. -/
def defColon : Nat → List Char → Option (List Char)
  | 0, _ => none
  | fuel + 1, l =>
    match l with
    | '\n' :: '\n' :: ':' :: r => some r
    | '\n' :: ':' :: r => some r
    | c :: rest => if isPySpace c then defColon fuel rest else none
    | [] => none

/-- The largest index `k ≥ 1` (counting from `i`) at which two consecutive
newlines occur — the greedy split point of `(?P<def>[\w\s]+)\n{2}`. -/
def lastNlNlAux : List Char → Nat → Option Nat
  | c1 :: c2 :: rest, i =>
    match lastNlNlAux (c2 :: rest) (i + 1) with
    | some j => some j
    | none => if c1 = '\n' ∧ c2 = '\n' ∧ 1 ≤ i then some i else none
  | _, _ => none

/-- `(?P<def>[\w\s]+)\n{2}`: the greedy def group — the longest non-empty
word-or-space prefix immediately followed by two newlines — and the rest of
the text after those newlines. -/
def defBody (l : List Char) : Option (List Char × List Char) :=
  match lastNlNlAux (l.takeWhile isWordSpace) 0 with
  | some k => some ((l.takeWhile isWordSpace).take k, l.drop (k + 2))
  | none => none

/-- One attempted match of `LicenseContent._definition_pattern`
(`license_factory.py` lines 262-264) at the head of `l`:
`(?P<term>\x60[\w\s]+\x60)\s*?\n{1,2}[:]\s{1,4}(?P<def>[\w\s]+)\n{2}`.
Returns `(term-with-backticks, def, rest)`. -/
def matchDefAt (l : List Char) : Option (List Char × List Char × List Char) :=
  match l with
  | '\x60' :: rest1 =>
    if (rest1.takeWhile isWordSpace).isEmpty then none
    else
      match rest1.drop (rest1.takeWhile isWordSpace).length with
      | '\x60' :: rest2 =>
        (defColon rest2.length rest2).bind fun rest3 =>
          tryWsDownCap
            (fun l4 => (defBody l4).map fun p =>
              ('\x60' :: (rest1.takeWhile isWordSpace ++ ['\x60']), p.1, p.2))
            1 4 rest3
      | _ => none
  | _ => none

/-- `finditer` for `_definition_pattern`: the list of
`(group(0), term, def)` triples of the leftmost non-overlapping matches. -/
def defFinditerAux : Nat → List Char → List (List Char × List Char × List Char)
  | 0, _ => []
  | _ + 1, [] => []
  | fuel + 1, c :: cs =>
    match matchDefAt (c :: cs) with
    | some (term, dtext, rest) =>
      ((c :: cs).take ((c :: cs).length - rest.length), term, dtext) ::
        defFinditerAux fuel rest
    | none => defFinditerAux fuel cs

/-- One attempted match of the attribute-list pattern `\{\s?\.\w+\s?\}`
(the second phase of `process_definitions`) at the head of `l`; returns
`(group(0), rest)`. -/
def matchAttrAt (l : List Char) : Option (List Char × List Char) :=
  match l with
  | b :: rest1 =>
    if b = '\x7b' then
    let step2 := fun (pre : List Char) (l2 : List Char) =>
      match l2 with
      | '.' :: l3 =>
        let run := l3.takeWhile isPyWord
        if run.isEmpty then none
        else
          match l3.drop run.length with
          | '\x7d' :: r =>
            some (pre ++ '.' :: (run ++ ['\x7d']), r)
          | c2 :: '\x7d' :: r =>
            if isPySpace c2 then some (pre ++ '.' :: (run ++ [c2, '\x7d']), r)
            else none
          | _ => none
      | _ => none
    (match rest1 with
    | c1 :: l2 =>
      if isPySpace c1 then
        match step2 ['\x7b', c1] l2 with
        | some r => some r
        | none => step2 ['\x7b'] rest1
      else step2 ['\x7b'] rest1
    | [] => none)
    else none
  | [] => none

/-- `re.findall` for the attribute-list pattern: matched strings in order. -/
def attrFindallAux : Nat → List Char → List (List Char)
  | 0, _ => []
  | _ + 1, [] => []
  | fuel + 1, c :: cs =>
    match matchAttrAt (c :: cs) with
    | some (m, rest) => m :: attrFindallAux fuel rest
    | none => attrFindallAux fuel cs

/-- `LicenseContent.process_definitions` (`license_factory.py` lines
351-378): for each `_definition_pattern` match of the original text (in
order), replace every occurrence of its `group(0)` by the formatted
replacement — `"\n" + dedent(f"{term}:\n{def}") + "\n"` in Markdown mode,
`"\n" + dedent(f"{term-without-backticks} - {def}") + "\n"` in plaintext
mode — then delete every attribute-list match. -/
def defRepl (plaintext : Bool) (term dtext : List Char) : List Char :=
  if plaintext then
    '\n' :: (dedent (strReplace term ['\x60'] [] ++
      ' ' :: '-' :: ' ' :: dtext) ++ ['\n'])
  else
    '\n' :: (dedent (term ++ ':' :: '\n' :: dtext) ++ ['\n'])

/-- The list-level core of `process_definitions`: the match-replacement fold
followed by the attribute-list deletion pass. -/
def process_definitions_core (text : List Char) (plaintext : Bool) :
    List Char :=
  let t1 := (defFinditerAux text.length text).foldl
    (fun t m => strReplace t m.1 (defRepl plaintext m.2.1 m.2.2)) text
  (attrFindallAux t1.length t1).foldl (fun t m => strReplace t m []) t1

def process_definitions (text : String) (plaintext : Bool) : String :=
  ⟨process_definitions_core text.data plaintext⟩

/-- Substring containment (Python `in` for strings). -/
def containsSub (pat : List Char) : List Char → Bool
  | [] => pat.isEmpty
  | c :: cs => (eatStr pat (c :: cs)).isSome || containsSub pat cs

theorem takeWhile_of_all {p : Char → Bool} : ∀ {l : List Char},
    (∀ x ∈ l, p x = true) → l.takeWhile p = l := by
  intro l
  induction l with
  | nil => intro _; rfl
  | cons c cs ih =>
    intro h
    have hc : p c = true := h c (by simp)
    simp [List.takeWhile_cons, hc, ih fun x hx => h x (by simp [hx])]

theorem takeWhile_all_app {p : Char → Bool} : ∀ {xs : List Char} {y : Char}
    {ys : List Char}, (∀ x ∈ xs, p x = true) → p y = false →
    (xs ++ y :: ys).takeWhile p = xs := by
  intro xs
  induction xs with
  | nil => intro y ys _ hy; simp [List.takeWhile_cons, hy]
  | cons c cs ih =>
    intro y ys h hy
    have hc : p c = true := h c (by simp)
    simp only [List.cons_append, List.takeWhile_cons, hc, if_pos]
    rw [ih (fun x hx => h x (by simp [hx])) hy]

theorem lastNlNl_append : ∀ (D : List Char) (d : Char),
    (∀ c ∈ D, ¬ c = '\n') →
    ∀ i : Nat, lastNlNlAux ((d :: D) ++ ['\n', '\n']) i =
      some (i + D.length + 1) := by
  intro D
  induction D with
  | nil =>
    intro d _ i
    show (match lastNlNlAux ['\n', '\n'] (i + 1) with
      | some j => some j
      | none => if d = '\n' ∧ '\n' = '\n' ∧ 1 ≤ i then some i else none) =
      some (i + [].length + 1)
    have hinner : lastNlNlAux ['\n', '\n'] (i + 1) = some (i + 1) := by
      show (match lastNlNlAux ['\n'] (i + 2) with
        | some j => some j
        | none =>
          if '\n' = '\n' ∧ '\n' = '\n' ∧ 1 ≤ i + 1 then some (i + 1)
          else none) = some (i + 1)
      rw [show lastNlNlAux ['\n'] (i + 2) = none from rfl]
      rw [if_pos ⟨rfl, rfl, by omega⟩]
    rw [hinner]
    exact congrArg some (by simp)
  | cons e D' ih =>
    intro d hD i
    have htail := ih e (fun c hc => hD c (by simp [hc])) (i + 1)
    show (match lastNlNlAux ((e :: D') ++ ['\n', '\n']) (i + 1) with
      | some j => some j
      | none =>
        if d = '\n' ∧ e = '\n' ∧ 1 ≤ i then some i else none) =
      some (i + (e :: D').length + 1)
    rw [htail]
    show some (i + 1 + D'.length + 1) = some (i + (D'.length + 1) + 1)
    exact congrArg some (by omega)

theorem defBody_block {D : List Char} (hne : D ≠ [])
    (hw : ∀ c ∈ D, isWordSpace c = true) (hnl : ∀ c ∈ D, ¬ c = '\n') :
    defBody (D ++ ['\n', '\n']) = some (D, []) := by
  have hall : ∀ c ∈ D ++ ['\n', '\n'], isWordSpace c = true := by
    intro c hc
    rcases List.mem_append.mp hc with h | h
    · exact hw c h
    · rcases List.mem_cons.mp h with rfl | h
      · rfl
      · rcases List.mem_singleton.mp h with rfl
        rfl
  unfold defBody
  rw [takeWhile_of_all hall]
  cases D with
  | nil => exact absurd rfl hne
  | cons d D' =>
    rw [show (d :: D') ++ ['\n', '\n'] = d :: (D' ++ ['\n', '\n']) from rfl]
    rw [show d :: (D' ++ ['\n', '\n']) = (d :: D') ++ ['\n', '\n'] from rfl,
      lastNlNl_append D' d (fun c hc => hnl c (by simp [hc])) 0]
    have hk : (d :: D').length = 0 + D'.length + 1 := by
      simp [List.length_cons]
    rw [← hk]
    have htake : ((d :: D') ++ ['\n', '\n']).take (d :: D').length = d :: D' :=
      List.take_left _ _
    have hdrop : ((d :: D') ++ ['\n', '\n']).drop ((d :: D').length + 2) = [] := by
      have : ((d :: D') ++ ['\n', '\n']).length = (d :: D').length + 2 := by
        simp
      rw [← this, List.drop_length]
    show some (((d :: D') ++ ['\n', '\n']).take (d :: D').length,
      ((d :: D') ++ ['\n', '\n']).drop ((d :: D').length + 2)) = some (d :: D', [])
    rw [htake, hdrop]

theorem eatWs_fail_of_head {d : Char} {rest : List Char}
    (hd : isPySpace d = false) : ∀ k : Nat, eatWs (k + 1) (d :: rest) = none := by
  intro k
  simp [eatWs, hd]

theorem tryWs14_one_space {α : Type} {cont : List Char → Option α} {d : Char}
    {rest : List Char} {v : α} (hd : isPySpace d = false)
    (hc : cont (d :: rest) = some v) :
    tryWsDownCap cont 1 4 (' ' :: d :: rest) = some v := by
  have hsp : isPySpace ' ' = true := rfl
  have h4 : eatWs 4 (' ' :: d :: rest) = none := by
    simp [eatWs, hsp, hd]
  have h3 : eatWs 3 (' ' :: d :: rest) = none := by
    simp [eatWs, hsp, hd]
  have h2 : eatWs 2 (' ' :: d :: rest) = none := by
    simp [eatWs, hsp, hd]
  have h1 : eatWs 1 (' ' :: d :: rest) = some (d :: rest) := by
    simp [eatWs, hsp]
  show tryWsDownCap cont 1 (3 + 1) (' ' :: d :: rest) = some v
  unfold tryWsDownCap
  rw [h4]
  simp only [Option.none_bind]
  unfold tryWsDownCap
  rw [h3]
  simp only [Option.none_bind]
  unfold tryWsDownCap
  rw [h2]
  simp only [Option.none_bind]
  unfold tryWsDownCap
  rw [h1]
  simp only [Option.some_bind, hc]
  rfl

theorem isPyWord_ne_backtick {c : Char} (h : isPyWord c = true) : ¬ c = '\x60' := by
  intro hc
  rw [hc] at h
  exact absurd h (by decide)

theorem isWordSpace_ne_brace {c : Char} (h : isWordSpace c = true) : ¬ c = '\x7b' := by
  intro hc
  rw [hc] at h
  exact absurd h (by decide)

theorem isWordSpace_of_word {c : Char} (h : isPyWord c = true) :
    isWordSpace c = true := by
  simp [isWordSpace, h]

theorem defColon_step (fuel : Nat) (r : List Char) :
    defColon (fuel + 1) ('\n' :: ':' :: r) = some r := rfl

theorem defFinditerAux_nil : ∀ f : Nat, defFinditerAux f [] = [] := by
  intro f; cases f <;> rfl

theorem strReplaceAux_nil (old new : List Char) :
    ∀ f : Nat, strReplaceAux old new f [] = [] := by
  intro f; cases f <;> rfl

theorem strReplace_self {l new : List Char} (h : l ≠ []) :
    strReplace l l new = new := by
  cases l with
  | nil => exact absurd rfl h
  | cons c cs =>
    show strReplaceAux (c :: cs) new (c :: cs).length (c :: cs) = new
    rw [List.length_cons]
    show (match eatStr (c :: cs) (c :: cs) with
      | some rest => new ++ strReplaceAux (c :: cs) new cs.length rest
      | none => c :: strReplaceAux (c :: cs) new cs.length cs) = new
    rw [show eatStr (c :: cs) (c :: cs) = some [] from
      eatStr_eq_some.mpr (by simp)]
    show new ++ strReplaceAux (c :: cs) new cs.length [] = new
    rw [strReplaceAux_nil]
    simp

theorem strReplaceAux_bt_body : ∀ (T : List Char) (fuel : Nat),
    (∀ c ∈ T, isPyWord c = true) → T.length + 1 ≤ fuel →
    strReplaceAux ['\x60'] [] fuel (T ++ ['\x60']) = T := by
  intro T
  induction T with
  | nil =>
    intro fuel _ hf
    cases fuel with
    | zero => omega
    | succ f =>
      show (match eatStr ['\x60'] ['\x60'] with
        | some rest => [] ++ strReplaceAux ['\x60'] [] f rest
        | none => '\x60' :: strReplaceAux ['\x60'] [] f []) = []
      rw [show eatStr ['\x60'] ['\x60'] = some [] from rfl]
      show [] ++ strReplaceAux ['\x60'] [] f [] = []
      rw [strReplaceAux_nil]
      rfl
  | cons t T' ih =>
    intro fuel h hf
    cases fuel with
    | zero => simp at hf
    | succ f =>
      have ht : ¬ t = '\x60' := isPyWord_ne_backtick (h t (by simp))
      show (match eatStr ['\x60'] (t :: (T' ++ ['\x60'])) with
        | some rest => [] ++ strReplaceAux ['\x60'] [] f rest
        | none => t :: strReplaceAux ['\x60'] [] f (T' ++ ['\x60'])) =
        t :: T'
      rw [show eatStr ['\x60'] (t :: (T' ++ ['\x60'])) = none from by
        simp [eatStr, ht]]
    

      rw [ih f (fun c hc => h c (by simp [hc])) (by
        simp only [List.length_cons] at hf; omega)]

theorem strReplace_backticks {T : List Char}
    (hTw : ∀ c ∈ T, isPyWord c = true) :
    strReplace ('\x60' :: (T ++ ['\x60'])) ['\x60'] [] = T := by
  show strReplaceAux ['\x60'] [] ('\x60' :: (T ++ ['\x60'])).length
    ('\x60' :: (T ++ ['\x60'])) = T
  rw [List.length_cons]
  show (match eatStr ['\x60'] ('\x60' :: (T ++ ['\x60'])) with
    | some rest => [] ++ strReplaceAux ['\x60'] [] (T ++ ['\x60']).length rest
    | none => '\x60' :: strReplaceAux ['\x60'] [] (T ++ ['\x60']).length
        ('\x60' :: (T ++ ['\x60']))) = T
  rw [show eatStr ['\x60'] ('\x60' :: (T ++ ['\x60'])) = some (T ++ ['\x60'])
    from rfl]
  show [] ++ strReplaceAux ['\x60'] [] (T ++ ['\x60']).length (T ++ ['\x60']) = T
  rw [List.nil_append]
  exact strReplaceAux_bt_body T _ hTw (by simp)

theorem splitNl_noNl : ∀ {l : List Char}, (∀ c ∈ l, ¬ c = '\n') →
    splitNl l = [l] := by
  intro l
  induction l with
  | nil => intro _; rfl
  | cons c cs ih =>
    intro h
    have hc : ¬ c = '\n' := h c (by simp)
    simp only [splitNl, hc, if_neg, not_false_iff,
      ih fun x hx => h x (by simp [hx])]

theorem splitNl_app {A : List Char} (B : List Char)
    (hA : ∀ c ∈ A, ¬ c = '\n') :
    splitNl (A ++ '\n' :: B) = A :: splitNl B := by
  induction A with
  | nil => simp [splitNl]
  | cons a A' ih =>
    have ha : ¬ a = '\n' := hA a (by simp)
    have ih' := ih fun x hx => hA x (by simp [hx])
    show (if a = '\n' then [] :: splitNl (A' ++ '\n' :: B)
      else
        match splitNl (A' ++ '\n' :: B) with
        | [] => [[a]]
        | l :: ls => (a :: l) :: ls) = (a :: A') :: splitNl B
    rw [if_neg ha, ih']

theorem intercalateNl_one (A : List Char) :
    List.intercalate ['\n'] [A] = A := by
  simp [List.intercalate]

theorem intercalateNl_two (A B : List Char) :
    List.intercalate ['\n'] [A, B] = A ++ '\n' :: B := by
  simp [List.intercalate, List.intersperse]

theorem isBlankLine_false {a : Char} {A : List Char}
    (ha : (a = ' ' || a = '\t') = false) : isBlankLine (a :: A) = false := by
  simp only [isBlankLine, List.all_cons, ha, Bool.false_and, Bool.and_false]

theorem lineIndent_nil {a : Char} {A : List Char}
    (ha : (a = ' ' || a = '\t') = false) : lineIndent (a :: A) = [] := by
  simp [lineIndent, List.takeWhile_cons, ha]

theorem dedent_one_line {a : Char} {A : List Char}
    (ha : (a = ' ' || a = '\t') = false)
    (hnl : ∀ c ∈ a :: A, ¬ c = '\n') :
    dedent (a :: A) = a :: A := by
  unfold dedent
  rw [splitNl_noNl hnl]
  simp only [List.map_cons, List.map_nil, isBlankLine_false ha, if_neg,
    Bool.false_eq_true, not_false_iff, List.filter, List.isEmpty_cons,
    Bool.not_false]
  rw [lineIndent_nil ha]
  simp [intercalateNl_one]

theorem dedent_two_lines {a b : Char} {A B : List Char}
    (ha : (a = ' ' || a = '\t') = false)
    (hb : (b = ' ' || b = '\t') = false)
    (hnlA : ∀ c ∈ a :: A, ¬ c = '\n') (hnlB : ∀ c ∈ b :: B, ¬ c = '\n') :
    dedent ((a :: A) ++ '\n' :: (b :: B)) = (a :: A) ++ '\n' :: (b :: B) := by
  unfold dedent
  rw [splitNl_app (b :: B) hnlA, splitNl_noNl hnlB]
  simp only [List.map_cons, List.map_nil, isBlankLine_false ha,
    isBlankLine_false hb, if_neg, Bool.false_eq_true, not_false_iff,
    List.filter, List.isEmpty_cons, Bool.not_false]
  rw [lineIndent_nil ha, lineIndent_nil hb]
  simp [commonPre, intercalateNl_two]

theorem matchAttrAt_none {c : Char} {cs : List Char} (hc : ¬ c = '\x7b') :
    matchAttrAt (c :: cs) = none := by
  simp [matchAttrAt, hc]

theorem attrFindall_no_brace : ∀ (f : Nat) (l : List Char),
    (∀ c ∈ l, ¬ c = '\x7b') → attrFindallAux f l = [] := by
  intro f
  induction f with
  | zero => intro l _; rfl
  | succ f ih =>
    intro l h
    cases l with
    | nil => rfl
    | cons c cs =>
      simp only [attrFindallAux]
      rw [matchAttrAt_none (h c (by simp))]
      exact ih cs fun x hx => h x (by simp [hx])

theorem defColon_full (fuel : Nat) (r : List Char) (h : 1 ≤ fuel) :
    defColon fuel ('\n' :: ':' :: r) = some r := by
  cases fuel with
  | zero => omega
  | succ f => rfl

theorem isPyWord_ne_nl {c : Char} (h : isPyWord c = true) : ¬ c = '\n' := by
  intro hc
  rw [hc] at h
  exact absurd h (by decide)

theorem isPyWord_isPySpace_false {c : Char} (h : isPyWord c = true) :
    isPySpace c = false := by
  by_contra hcon
  rw [Bool.not_eq_false] at hcon
  simp only [isPySpace, Bool.or_eq_true, decide_eq_true_eq] at hcon
  rcases hcon with ((((rfl | rfl) | rfl) | rfl) | rfl) | rfl <;>
    exact absurd h (by decide)

theorem isPySpace_false_not_st {c : Char} (h : isPySpace c = false) :
    (c = ' ' || c = '\t') = false := by
  by_contra hcon
  rw [Bool.not_eq_false, Bool.or_eq_true, decide_eq_true_eq,
    decide_eq_true_eq] at hcon
  rcases hcon with rfl | rfl <;> exact absurd h (by decide)

theorem matchDefAt_block {T D : List Char}
    (hT : T ≠ []) (hTw : ∀ c ∈ T, isPyWord c = true)
    (hD : D ≠ []) (hDw : ∀ c ∈ D, isWordSpace c = true)
    (hDnl : ∀ c ∈ D, ¬ c = '\n') (hDh : isPySpace D.headI = false) :
    matchDefAt
        ('\x60' :: (T ++ '\x60' :: '\n' :: ':' :: ' ' :: (D ++ ['\n', '\n']))) =
      some ('\x60' :: (T ++ ['\x60']), D, []) := by
  have hTws : ∀ c ∈ T, isWordSpace c = true :=
    fun c hc => isWordSpace_of_word (hTw c hc)
  have hbt : isWordSpace '\x60' = false := by decide
  have hrun : (T ++ '\x60' :: '\n' :: ':' :: ' ' ::
      (D ++ ['\n', '\n'])).takeWhile isWordSpace = T :=
    takeWhile_all_app hTws hbt
  simp only [matchDefAt, hrun]
  cases T with
  | nil => exact absurd rfl hT
  | cons t0 T' =>
    simp only [List.isEmpty_cons, Bool.false_eq_true, if_false]
    rw [List.drop_left]
    simp only []
    rw [defColon_full _ _ (by simp)]
    simp only [Option.some_bind]
    cases D with
    | nil => exact absurd rfl hD
    | cons d D' =>
      have hd : isPySpace d = false := hDh
      rw [show (d :: D') ++ ['\n', '\n'] = d :: (D' ++ ['\n', '\n']) from rfl]
      refine tryWs14_one_space hd ?_
      rw [show d :: (D' ++ ['\n', '\n']) = (d :: D') ++ ['\n', '\n'] from rfl]
      rw [defBody_block hD hDw hDnl]
      rfl

theorem defFinditer_single {c : Char} {cs term dt : List Char}
    (h : matchDefAt (c :: cs) = some (term, dt, [])) :
    defFinditerAux (c :: cs).length (c :: cs) = [(c :: cs, term, dt)] := by
  rw [List.length_cons]
  simp only [defFinditerAux]
  rw [h]
  simp only [List.length_nil, Nat.sub_zero, defFinditerAux_nil]
  rw [List.take_length]

theorem defRepl_false_eval {T D : List Char}
    (hTw : ∀ c ∈ T, isPyWord c = true)
    (hD : D ≠ []) (hDw : ∀ c ∈ D, isPyWord c = true ∨ c = ' ')
    (hDh : isPyWord D.headI = true) :
    defRepl false ('\x60' :: (T ++ ['\x60'])) D =
      '\n' :: '\x60' :: (T ++ '\x60' :: ':' :: '\n' :: (D ++ ['\n'])) := by
  have hDnl : ∀ c ∈ D, ¬ c = '\n' := by
    intro c hc
    rcases hDw c hc with h | rfl
    · exact isPyWord_ne_nl h
    · decide
  simp only [defRepl, Bool.false_eq_true, if_false]
  have harg : ('\x60' :: (T ++ ['\x60'])) ++ ':' :: '\n' :: D =
      ('\x60' :: (T ++ ['\x60', ':'])) ++ '\n' :: D := by simp
  rw [harg]
  cases D with
  | nil => exact absurd rfl hD
  | cons d D' =>
    have ha : (('\x60' : Char) = ' ' || ('\x60' : Char) = '\t') = false := by
      decide
    have hb : (d = ' ' || d = '\t') = false :=
      isPySpace_false_not_st (isPyWord_isPySpace_false hDh)
    have hnlA : ∀ c ∈ '\x60' :: (T ++ ['\x60', ':']), ¬ c = '\n' := by
      intro c hc
      rcases List.mem_cons.mp hc with rfl | hc
      · decide
      · rcases List.mem_append.mp hc with h | h
        · exact isPyWord_ne_nl (hTw c h)
        · rcases List.mem_cons.mp h with rfl | h
          · decide
          · rcases List.mem_singleton.mp h with rfl
            decide
    rw [dedent_two_lines ha hb hnlA hDnl]
    simp

theorem defRepl_true_eval {T D : List Char}
    (hT : T ≠ []) (hTw : ∀ c ∈ T, isPyWord c = true)
    (hD : D ≠ []) (hDw : ∀ c ∈ D, isPyWord c = true ∨ c = ' ') :
    defRepl true ('\x60' :: (T ++ ['\x60'])) D =
      '\n' :: (T ++ ' ' :: '-' :: ' ' :: (D ++ ['\n'])) := by
  have hDnl : ∀ c ∈ D, ¬ c = '\n' := by
    intro c hc
    rcases hDw c hc with h | rfl
    · exact isPyWord_ne_nl h
    · decide
  simp only [defRepl, if_true]
  rw [strReplace_backticks hTw]
  cases T with
  | nil => exact absurd rfl hT
  | cons t0 T' =>
    have ha : (t0 = ' ' || t0 = '\t') = false :=
      isPySpace_false_not_st (isPyWord_isPySpace_false (hTw t0 (by simp)))
    have hnl : ∀ e ∈ t0 :: (T' ++ ' ' :: '-' :: ' ' :: D), ¬ e = '\n' := by
      intro e he
      rcases List.mem_cons.mp he with heq | he
      · rw [heq]
        exact isPyWord_ne_nl (hTw t0 (by simp))
      · rcases List.mem_append.mp he with h | h
        · exact isPyWord_ne_nl (hTw e (by simp [h]))
        · rcases List.mem_cons.mp h with heq | h
          · rw [heq]; decide
          · rcases List.mem_cons.mp h with heq | h
            · rw [heq]; decide
            · rcases List.mem_cons.mp h with heq | h
              · rw [heq]; decide
              · exact hDnl e h
    show '\n' :: (dedent (t0 :: (T' ++ ' ' :: '-' :: ' ' :: D)) ++ ['\n']) = _
    rw [dedent_one_line ha hnl]
    simp

theorem process_definitions_core_block (plaintext : Bool)
    {T D : List Char} (hT : T ≠ []) (hTw : ∀ c ∈ T, isPyWord c = true)
    (hD : D ≠ []) (hDw : ∀ c ∈ D, isPyWord c = true ∨ c = ' ')
    (hDh : isPyWord D.headI = true) :
    process_definitions_core
        ('\x60' :: (T ++ '\x60' :: '\n' :: ':' :: ' ' :: (D ++ ['\n', '\n'])))
        plaintext =
      defRepl plaintext ('\x60' :: (T ++ ['\x60'])) D := by
  have hDws : ∀ c ∈ D, isWordSpace c = true := by
    intro c hc
    rcases hDw c hc with h | heq
    · exact isWordSpace_of_word h
    · rw [heq]; rfl
  have hDnl : ∀ c ∈ D, ¬ c = '\n' := by
    intro c hc
    rcases hDw c hc with h | heq
    · exact isPyWord_ne_nl h
    · rw [heq]; decide
  have hDhs : isPySpace D.headI = false := isPyWord_isPySpace_false hDh
  have hfind := defFinditer_single (matchDefAt_block hT hTw hD hDws hDnl hDhs)
  have hnb : ∀ c ∈ defRepl plaintext ('\x60' :: (T ++ ['\x60'])) D,
      ¬ c = '\x7b' := by
    cases plaintext with
    | false =>
      rw [defRepl_false_eval hTw hD hDw hDh]
      intro c hc
      rcases List.mem_cons.mp hc with heq | hc
      · rw [heq]; decide
      · rcases List.mem_cons.mp hc with heq | hc
        · rw [heq]; decide
        · rcases List.mem_append.mp hc with h | h
          · exact isWordSpace_ne_brace (isWordSpace_of_word (hTw c h))
          · rcases List.mem_cons.mp h with heq | h
            · rw [heq]; decide
            · rcases List.mem_cons.mp h with heq | h
              · rw [heq]; decide
              · rcases List.mem_cons.mp h with heq | h
                · rw [heq]; decide
                · rcases List.mem_append.mp h with h2 | h2
                  · exact isWordSpace_ne_brace (hDws c h2)
                  · rcases List.mem_singleton.mp h2 with rfl
                    decide
    | true =>
      rw [defRepl_true_eval hT hTw hD hDw]
      intro c hc
      rcases List.mem_cons.mp hc with heq | hc
      · rw [heq]; decide
      · rcases List.mem_append.mp hc with h | h
        · exact isWordSpace_ne_brace (isWordSpace_of_word (hTw c h))
        · rcases List.mem_cons.mp h with heq | h
          · rw [heq]; decide
          · rcases List.mem_cons.mp h with heq | h
            · rw [heq]; decide
            · rcases List.mem_cons.mp h with heq | h
              · rw [heq]; decide
              · rcases List.mem_append.mp h with h2 | h2
                · exact isWordSpace_ne_brace (hDws c h2)
                · rcases List.mem_singleton.mp h2 with rfl
                  decide
  simp only [process_definitions_core]
  rw [hfind]
  simp only [List.foldl_cons, List.foldl_nil]
  rw [strReplace_self (by simp)]
  rw [attrFindall_no_brace _ _ hnb]
  rfl

/-- C3 counterexample: on the definition block `\x60key\x60\n: the def\n\n`,
`process_definitions` with `plaintext=False` produces `\n\x60key\x60:\nthe
def\n` — the colon is attached to the term line and the definition line has
no `': '` prefix, so the output is not Markdown description-list syntax; and
with `plaintext=True` it produces `\nkey - the def\n` — a single
`term - definition` line, not a dash-prefixed line under the term. -/
theorem C3_definitions_counterexample :
    process_definitions "\x60key\x60\n: the def\n\n" false =
      "\n\x60key\x60:\nthe def\n" ∧
    process_definitions "\x60key\x60\n: the def\n\n" true =
      "\nkey - the def\n" ∧
    containsSub ['\n', ':', ' ']
      (process_definitions "\x60key\x60\n: the def\n\n" false).data = false ∧
    containsSub ['\n', '-', ' ']
      (process_definitions "\x60key\x60\n: the def\n\n" true).data = false := by
  refine ⟨by decide, by decide, by decide, by decide⟩

/-- C3 (amended): for a definition block whose term is a non-empty run of
word characters and whose definition is a non-empty word-or-space line,
`process_definitions` rewrites the block to
`"\n" + term + ":\n" + definition + "\n"` in Markdown mode (term keeps its
backticks and the colon is appended to it; the definition line carries no
`': '` prefix) and to `"\n" + unbackticked term + " - " + definition + "\n"`
in plaintext mode (one `term - definition` line, not a dash-prefixed
bullet). -/
theorem C3_definition_rewrite (T D : List Char)
    (hT : T ≠ []) (hTw : ∀ c ∈ T, isPyWord c = true)
    (hD : D ≠ []) (hDw : ∀ c ∈ D, isPyWord c = true ∨ c = ' ')
    (hDh : isPyWord D.headI = true) :
    process_definitions
        ⟨'\x60' ::
          (T ++ '\x60' :: '\n' :: ':' :: ' ' :: (D ++ ['\n', '\n']))⟩ false =
      ⟨'\n' :: '\x60' :: (T ++ '\x60' :: ':' :: '\n' :: (D ++ ['\n']))⟩ ∧
    process_definitions
        ⟨'\x60' ::
          (T ++ '\x60' :: '\n' :: ':' :: ' ' :: (D ++ ['\n', '\n']))⟩ true =
      ⟨'\n' :: (T ++ ' ' :: '-' :: ' ' :: (D ++ ['\n']))⟩ := by
  constructor
  · show String.mk (process_definitions_core _ false) = _
    rw [process_definitions_core_block false hT hTw hD hDw hDh,
      defRepl_false_eval hTw hD hDw hDh]
  · show String.mk (process_definitions_core _ true) = _
    rw [process_definitions_core_block true hT hTw hD hDw hDh,
      defRepl_true_eval hT hTw hD hDw]

/-- C3 witness: the amended theorem applied at the concrete term `key` and
definition `the def`. -/
theorem C3_definition_rewrite_witness :
    (['k', 'e', 'y'] ≠ ([] : List Char) ∧
      ['t', 'h', 'e', ' ', 'd', 'e', 'f'] ≠ ([] : List Char)) ∧
    (process_definitions
        ⟨'\x60' :: (['k', 'e', 'y'] ++ '\x60' :: '\n' :: ':' :: ' ' ::
          (['t', 'h', 'e', ' ', 'd', 'e', 'f'] ++ ['\n', '\n']))⟩ false =
      ⟨'\n' :: '\x60' :: (['k', 'e', 'y'] ++ '\x60' :: ':' :: '\n' ::
        (['t', 'h', 'e', ' ', 'd', 'e', 'f'] ++ ['\n']))⟩ ∧
    process_definitions
        ⟨'\x60' :: (['k', 'e', 'y'] ++ '\x60' :: '\n' :: ':' :: ' ' ::
          (['t', 'h', 'e', ' ', 'd', 'e', 'f'] ++ ['\n', '\n']))⟩ true =
      ⟨'\n' :: (['k', 'e', 'y'] ++ ' ' :: '-' :: ' ' ::
        (['t', 'h', 'e', ' ', 'd', 'e', 'f'] ++ ['\n']))⟩) :=
  ⟨⟨by decide, by decide⟩,
    C3_definition_rewrite ['k', 'e', 'y'] ['t', 'h', 'e', ' ', 'd', 'e', 'f']
      (by decide) (by decide) (by decide) (by decide) (by decide)⟩

/-- The lazy gap `(.*?)` (without DOTALL: the gap may not contain a newline)
up to the literal `close`, trying gap lengths shortest-first; returns the
gap and the rest after `close`. -/
def lazyGapNoNl (close : List Char) : Nat → List Char →
    Option (List Char × List Char)
  | 0, _ => none
  | fuel + 1, l =>
    match eatStr close l with
    | some r => some ([], r)
    | none =>
      match l with
      | [] => none
      | c :: rest =>
        if c = '\n' then none
        else (lazyGapNoNl close fuel rest).map fun p => (c :: p.1, p.2)

/-- The lazy gap `(.*?)` with DOTALL up to the literal `close` (used by the
closing fence of `_code_pattern`). -/
def lazyGapDotAll (close : List Char) : Nat → List Char →
    Option (List Char × List Char)
  | 0, _ => none
  | fuel + 1, l =>
    match eatStr close l with
    | some r => some ([], r)
    | none =>
      match l with
      | [] => none
      | c :: rest => (lazyGapDotAll close fuel rest).map fun p => (c :: p.1, p.2)

/-- One attempted match of `LicenseContent._code_pattern`
(`license_factory.py` lines 259-261:
`(\x60{3}markdown|\x60{3}plaintext(.*?)\x60{3})`, DOTALL) at the head of
`l`; returns group 1 and the rest. -/
def matchCodeAt (l : List Char) : Option (List Char × List Char) :=
  match eatStr "\x60\x60\x60markdown".data l with
  | some r => some ("\x60\x60\x60markdown".data, r)
  | none =>
    match eatStr "\x60\x60\x60plaintext".data l with
    | some r =>
      (lazyGapDotAll "\x60\x60\x60".data r.length r).map fun p =>
        ("\x60\x60\x60plaintext".data ++ p.1 ++ "\x60\x60\x60".data, p.2)
    | none => none

/-- `re.sub` of `_code_pattern` with replacement `===\1===`
(`LicenseContent.replace_code_blocks`, `license_factory.py` lines 451-461). -/
def codeSubAux : Nat → List Char → List Char
  | 0, l => l
  | _ + 1, [] => []
  | fuel + 1, c :: cs =>
    match matchCodeAt (c :: cs) with
    | some (g1, rest) =>
      '=' :: '=' :: '=' :: (g1 ++ '=' :: '=' :: '=' :: codeSubAux fuel rest)
    | none => c :: codeSubAux fuel cs

/-- List-level `replace_code_blocks`. -/
def replace_code_blocks_core (l : List Char) : List Char :=
  codeSubAux l.length l

/-- One attempted match of `LicenseContent._reader_header_pattern`
(`<h2 class="license-first-header">(.*?)</h2>`) at the head of `l`. -/
def matchReaderHeaderAt (l : List Char) : Option (List Char × List Char) :=
  match eatStr "<h2 class=\"license-first-header\">".data l with
  | some r => lazyGapNoNl "</h2>".data r.length r
  | none => none

/-- `re.sub` of `_reader_header_pattern` with replacement `## \1`. -/
def readerHeaderSubAux : Nat → List Char → List Char
  | 0, l => l
  | _ + 1, [] => []
  | fuel + 1, c :: cs =>
    match matchReaderHeaderAt (c :: cs) with
    | some (g1, rest) =>
      '#' :: '#' :: ' ' :: (g1 ++ readerHeaderSubAux fuel rest)
    | none => c :: readerHeaderSubAux fuel cs

/-- One attempted match of `LicenseContent._header_pattern`
(`#+ (\w+?)\n`) at the head of `l`: a run of hashes, a space, a word run
whose next character is a newline.  Returns `(group(0), group(1), rest)`. -/
def matchHeaderAt (l : List Char) : Option (List Char × List Char × List Char) :=
  let hashes := l.takeWhile fun c => c = '#'
  if hashes.isEmpty then none
  else
    match l.drop hashes.length with
    | ' ' :: r1 =>
      let w := r1.takeWhile isPyWord
      if w.isEmpty then none
      else
        match r1.drop w.length with
        | '\n' :: rest =>
          some (hashes ++ ' ' :: (w ++ ['\n']), w, rest)
        | _ => none
    | _ => none

/-- `finditer` of `_header_pattern`: `(group(0), group(1))` pairs in order. -/
def headerFinditerAux : Nat → List Char → List (List Char × List Char)
  | 0, _ => []
  | _ + 1, [] => []
  | fuel + 1, c :: cs =>
    match matchHeaderAt (c :: cs) with
    | some (g0, g1, rest) => (g0, g1) :: headerFinditerAux fuel rest
    | none => headerFinditerAux fuel cs

/-- Python `str.upper()` (ASCII). -/
def pyUpper (l : List Char) : List Char := l.map Char.toUpper

/-- Python `str.lower()` (ASCII). -/
def pyLower (l : List Char) : List Char := l.map Char.toLower

/-- The header-uppercasing loop of `process_markdown_to_plaintext`
(`license_factory.py` lines 341-343): for each `_header_pattern` match of
the original text, replace every occurrence of its `group(0)` by the
uppercased `group(1)` followed by a newline. -/
def headerUpperLoop (text : List Char) : List Char :=
  (headerFinditerAux text.length text).foldl
    (fun t m => strReplace t m.1 (pyUpper m.2 ++ ['\n'])) text

/-- The backtick alternative of the delimiter group of
`LicenseContent._markdown_pattern`. -/
def mdTryTick (l : List Char) : Option (List Char × List Char) :=
  match eatStr ['\x60'] l with
  | some r => lazyGapNoNl ['\x60'] r.length r
  | none => none

/-- The `\*` alternative of the delimiter group, falling back to the
backtick alternative. -/
def mdTryStar (l : List Char) : Option (List Char × List Char) :=
  match eatStr ['*'] l with
  | some r =>
    match lazyGapNoNl ['*'] r.length r with
    | some p => some p
    | none => mdTryTick l
  | none => mdTryTick l

/-- The delimiter group `(\*\*|\*|\x60)(.*?)\1`, alternatives in
pattern order. -/
def mdTryDelims (l : List Char) : Option (List Char × List Char) :=
  match eatStr ['*', '*'] l with
  | some r =>
    match lazyGapNoNl ['*', '*'] r.length r with
    | some p => some p
    | none => mdTryStar l
  | none => mdTryStar l

/-- One attempted match of `LicenseContent._markdown_pattern`
(`#+ |(\*\*|\*|\x60)(.*?)\1`) at the head of `l`.  Returns the replacement
text `\2` (empty when the `#+ ` alternative matches, since the unmatched
group expands to the empty string) and the rest. -/
def matchMdAt (l : List Char) : Option (List Char × List Char) :=
  let hashes := l.takeWhile fun c => c = '#'
  if !hashes.isEmpty then
    match l.drop hashes.length with
    | ' ' :: rest => some ([], rest)
    | _ => mdTryDelims l
  else mdTryDelims l

/-- `re.sub` of `_markdown_pattern` with replacement `\2`. -/
def mdPatternSubAux : Nat → List Char → List Char
  | 0, l => l
  | _ + 1, [] => []
  | fuel + 1, c :: cs =>
    match matchMdAt (c :: cs) with
    | some (g2, rest) => g2 ++ mdPatternSubAux fuel rest
    | none => c :: mdPatternSubAux fuel cs

/-- Search for the `\](` separator of `_link_pattern` while extending the
lazy first gap (no newlines), then match the second lazy gap up to `)`.
Returns `(group1, group2, rest)`. -/
def findLinkTail : Nat → List Char → Option (List Char × List Char × List Char)
  | 0, _ => none
  | fuel + 1, l =>
    match
      (match eatStr [']', '('] l with
      | some r =>
        match lazyGapNoNl [')'] r.length r with
        | some p => some ([], p.1, p.2)
        | none => none
      | none => none) with
    | some t => some t
    | none =>
      match l with
      | [] => none
      | c :: rest =>
        if c = '\n' then none
        else (findLinkTail fuel rest).map fun t => (c :: t.1, t.2.1, t.2.2)

/-- One attempted match of `LicenseContent._link_pattern`
(`\[(.*?)\]\((.*?)\)`) at the head of `l`: returns `(text, url, rest)`. -/
def matchLinkAt (l : List Char) : Option (List Char × List Char × List Char) :=
  match l with
  | '[' :: r => findLinkTail r.length r
  | _ => none

/-- `re.sub` of `_link_pattern` with replacement `\1 (\2)`. -/
def linkSubAux : Nat → List Char → List Char
  | 0, l => l
  | _ + 1, [] => []
  | fuel + 1, c :: cs =>
    match matchLinkAt (c :: cs) with
    | some (g1, g2, rest) =>
      g1 ++ ' ' :: '(' :: (g2 ++ ')' :: linkSubAux fuel rest)
    | none => c :: linkSubAux fuel cs

/-- One attempted match of `LicenseContent._image_pattern`
(`!\[(.*?)\]\((.*?)\)`) at the head of `l`. -/
def matchImageAt (l : List Char) : Option (List Char × List Char × List Char) :=
  match l with
  | '!' :: '[' :: r => findLinkTail r.length r
  | _ => none

/-- `re.sub` of `_image_pattern` with replacement `\1 (\2)`. -/
def imageSubAux : Nat → List Char → List Char
  | 0, l => l
  | _ + 1, [] => []
  | fuel + 1, c :: cs =>
    match matchImageAt (c :: cs) with
    | some (g1, g2, rest) =>
      g1 ++ ' ' :: '(' :: (g2 ++ ')' :: imageSubAux fuel rest)
    | none => c :: imageSubAux fuel cs

/-- `LicenseContent.process_markdown_to_plaintext` (`license_factory.py`
lines 329-349): definitions in plaintext form, headers uppercased, Markdown
emphasis/inline-code stripped, links and images rewritten to `text (url)`,
code fences fenced with `===`. -/
def process_markdown_to_plaintext_core (text : List Char) : List Char :=
  let t1 := process_definitions_core text true
  let t2 := headerUpperLoop t1
  let t3 := mdPatternSubAux t2.length t2
  let t4 := linkSubAux t3.length t3
  let t5 := imageSubAux t4.length t4
  codeSubAux t5.length t5

/-- `LicenseContent.process_mkdocs_to_markdown` (`license_factory.py` lines
463-488): code blocks fenced, annotations converted to footnotes, the
reader h2 header rewritten to `## `, definitions processed in Markdown
mode. -/
def process_mkdocs_to_markdown_core (reader : List Char) : List Char :=
  let t1 := replace_code_blocks_core reader
  let t2 := transform_footnotes_core t1
  let t3 := readerHeaderSubAux t2.length t2
  process_definitions_core t3 false

/-- Python `str.split(sep)` for a non-empty separator (fuel-indexed scan). -/
def splitOnStrAux (sep : List Char) : Nat → List Char → List (List Char)
  | 0, l => [l]
  | _ + 1, [] => [[]]
  | fuel + 1, c :: cs =>
    match eatStr sep (c :: cs) with
    | some rest => [] :: splitOnStrAux sep fuel rest
    | none =>
      match splitOnStrAux sep fuel cs with
      | [] => [[c]]
      | seg :: segs => (c :: seg) :: segs

/-- Python `str.split(sep)` (the hooks only call it with non-empty `sep`). -/
def splitOnStr (sep l : List Char) : List (List Char) :=
  if sep.isEmpty then [l] else splitOnStrAux sep l.length l

/-- Whitespace-separated chunks of a line (the word splitting of
`textwrap.wrap` after whitespace normalization). -/
def pyWordsAux : Nat → List Char → List (List Char)
  | 0, _ => []
  | _ + 1, [] => []
  | fuel + 1, c :: cs =>
    if isPySpace c then pyWordsAux fuel cs
    else
      ((c :: cs).takeWhile fun d => !isPySpace d) ::
        pyWordsAux fuel ((c :: cs).dropWhile fun d => !isPySpace d)

/-- Greedy fill of words into lines of width at most 70 (a word longer than
70 stands alone, as with `break_long_words=False`). -/
def wrapGreedy (ws : List (List Char)) : List (List Char) :=
  let acc := ws.foldl
    (fun (acc : List (List Char) × List Char) w =>
      if acc.2.isEmpty then (acc.1, w)
      else if acc.2.length + 1 + w.length ≤ 70 then (acc.1, acc.2 ++ ' ' :: w)
      else (acc.1 ++ [acc.2], w))
    ([], [])
  if acc.2.isEmpty then acc.1 else acc.1 ++ [acc.2]

/-- `textwrap.wrap(width=70, break_long_words=False)`, simplified to a
whitespace-normalized greedy fill; textwrap's hyphen-aware word-separator
regex is not modelled (the hook's license prose wraps on spaces). -/
def wrap70 (l : List Char) : List (List Char) :=
  wrapGreedy (pyWordsAux l.length l)

/-- `_utils.wrap_text`: paragraphs split on blank lines; inside each
paragraph every non-empty line is wrapped at 70 columns (its own loop
handles bullet and plain paragraphs identically), whitespace-only wraps are
dropped, and everything is re-joined. -/
def wrap_text_core (text : List Char) : List Char :=
  List.intercalate ['\n', '\n']
    ((splitOnStr ['\n', '\n'] text).map fun para =>
      List.intercalate ['\n']
        (((((splitNl para).filter fun ln => !ln.isEmpty).map wrap70).filter
            fun w => !w.isEmpty).map (List.intercalate ['\n'])))

/-- `_utils.wrap_text` at string level. -/
def wrap_text (text : String) : String := ⟨wrap_text_core text.data⟩

/-- `textwrap.indent(text, prefix)` with the default predicate: the prefix
is added to every line whose strip is non-empty. -/
def indentPy (pre l : List Char) : List Char :=
  List.intercalate ['\n']
    ((splitNl l).map fun ln => if (pyStrip ln).isEmpty then ln else pre ++ ln)

/-- Python's f-string rendering of a possibly-missing value: `dict.get`
returns `None`, which interpolates as the string `None`. -/
def pyStr (o : Option String) : String :=
  match o with
  | some s => s
  | none => "None"

/-- One attempted match of the interpretation-title pattern
`\{\{\s{1,2}plain_name\s\|\strim\s{1,2}\}\}` (`license_factory.py` lines
587-591) at the head of `l`. -/
def matchPlainNameTrimAt (l : List Char) : Option (List Char) :=
  (eatStr ['\x7b', '\x7b'] l).bind fun l1 =>
    tryWsDown
      (fun l2 =>
        (eatStr "plain_name".data l2).bind fun l3 =>
          match l3 with
          | c1 :: '|' :: c2 :: l4 =>
            if isPySpace c1 && isPySpace c2 then
              (eatStr "trim".data l4).bind fun l5 =>
                tryWsDown (fun l6 => eatStr ['\x7d', '\x7d'] l6) 1 2 l5
            else none
          | _ => none)
      1 2 l1

/-- `re.sub` scan for the interpretation-title pattern. -/
def plainNameTrimSubAux (repl : List Char) : Nat → List Char → List Char
  | 0, l => l
  | _ + 1, [] => []
  | fuel + 1, c :: cs =>
    match matchPlainNameTrimAt (c :: cs) with
    | some rest => repl ++ plainNameTrimSubAux repl fuel rest
    | none => c :: plainNameTrimSubAux repl fuel cs

/-- The license's `package.json`, reduced to the field the hook reads and
writes (`version`); other JSON entries do not influence any hook behavior. -/
structure PackageJson where
  version : Option String
deriving DecidableEq, Repr

/-- The filesystem's `packages/<spdx>/package.json` files, keyed by the
lowercased SPDX id (`find_repo_root() / "packages" / spdx_id /
"package.json"`). -/
def PackageStore := String → Option PackageJson

/-- The page-metadata mapping, restricted to the keys the hooks read.  A
`none` field models an absent key, so `meta[k]` raises `KeyError` exactly
when the field is `none`. -/
structure PageMeta where
  plain_name : Option String := none
  reader_license_text : Option String := none
  spdx_id : Option String := none
  category : Option String := none
  changelog : Option String := none
  official_license_text : Option String := none
  original_version : Option String := none
  interpretation_text : Option String := none
  interpretation_title : Option String := none
  original_name : Option String := none
  original_organization : Option String := none
  original_url : Option String := none
  official_link : Option String := none
  link_in_original : Option Bool := none
  outro : Option String := none
  github_issues_link : Option String := none
  github_edit_link : Option String := none
  description : Option String := none
  conditions : Option (List String) := none
  permissions : Option (List String) := none
  limitations : Option (List String) := none
deriving DecidableEq, Repr

/-- The parts of the MkDocs page object that `LicenseContent` reads. -/
structure PageCtx where
  title : Option String := none
  url : String := ""
  meta : PageMeta := {}
deriving DecidableEq, Repr

/-- A Python `KeyError`, carrying the missing key. -/
inductive KeyErr where
  | keyError (key : String)
deriving DecidableEq, Repr

/-- `meta[key]`: a present value, or a `KeyError` for a missing key. -/
def require {α : Type} (v : Option α) (key : String) : Except KeyErr α :=
  match v with
  | some x => .ok x
  | none => .error (.keyError key)

/-- Python `str.lower()` at string level. -/
def pyLowerStr (s : String) : String := ⟨pyLower s.data⟩

/-- Python `str.upper()` at string level. -/
def pyUpperStr (s : String) : String := ⟨pyUpper s.data⟩

/-- Python `str.strip()` at string level. -/
def pyStripStr (s : String) : String := ⟨pyStrip s.data⟩

/-- `LicenseContent.get_license_type` (`license_factory.py` lines 310-327):
`dedication` when "domain" occurs in the page title, the page url, or the
category metadata; otherwise `license`. -/
def get_license_type (page : PageCtx) : String :=
  if (match page.title with
      | some t => containsSub "domain".data (pyLower t.data)
      | none => false) ||
    containsSub "domain".data (pyLower page.url.data) ||
    (match page.meta.category with
      | some c => containsSub "domain".data (pyLower c.data)
      | none => false)
  then "dedication" else "license"

/-- `LicenseContent.tag_map` (`license_factory.py` lines 654-669). -/
def tag_map : List (String × String) :=
  [("distribution", "can-share"),
   ("commercial-use", "can-sell"),
   ("modifications", "can-change"),
   ("revokable", "can-revoke"),
   ("relicense", "relicense"),
   ("disclose-source", "share-source"),
   ("document-changes", "describe-changes"),
   ("include-copyright", "give-credit"),
   ("same-license", "share-alike (strict)"),
   ("same-license--file", "share-alike (relaxed)"),
   ("same-license--library", "share-alike (relaxed)")]

/-- `LicenseContent.get_tags` (`license_factory.py` lines 490-513). -/
def get_tags (meta : PageMeta) : Option (List String) :=
  let fm := meta.conditions.getD [] ++ meta.permissions.getD [] ++
    meta.limitations.getD []
  if fm.isEmpty then none
  else some (fm.filterMap fun t => List.lookup t tag_map)

/-- `LicenseContent.get_plain_version` (`license_factory.py` lines 380-403):
read `packages/<spdx>/package.json`; missing file or missing/empty version
gives the placeholder `0.0.0`; a development version is bumped to `0.1.0`
and written back when building for production. -/
def get_plain_version (spdx_lower : String) (production : Bool)
    (store : PackageStore) : String × PackageStore :=
  match store spdx_lower with
  | none => ("0.0.0", store)
  | some package =>
    match package.version with
    | none => ("0.0.0", store)
    | some version =>
      if version = "" then ("0.0.0", store)
      else if containsSub "development".data version.data && production then
        ("0.1.0",
          fun k => if k = spdx_lower then some { version := some "0.1.0" }
            else store k)
      else (version, store)

/-- The attributes `LicenseContent.__init__` computes, in construction
order; rendering blocks below are functions of this record and the page. -/
structure LicenseContent where
  license_type : String
  title : String
  year : String
  reader_license_text : String
  markdown_license_text : String
  plaintext_license_text : String
  changelog_text : String
  official_license_text : String
  plain_version : String
  tags : Option (List String)
  has_official : Bool
  embed_url : String
deriving DecidableEq, Repr

/-- `LicenseContent.__init__` (`license_factory.py` lines 277-308), with the
ambient inputs made explicit: the current year (from `datetime.now`), the
production flag (`Status.production`), and the package store (the
filesystem); returns the constructed attributes and the possibly-updated
store, or the `KeyError` Python would raise. -/
def mkLicenseContent (page : PageCtx) (year : String) (production : Bool)
    (store : PackageStore) :
    Except KeyErr (LicenseContent × PackageStore) := do
  let license_type := get_license_type page
  let plain_name ← require page.meta.plain_name "plain_name"
  let title := "The " ++ plain_name
  let reader_raw ← require page.meta.reader_license_text "reader_license_text"
  let reader := replace_year year reader_raw
  let markdown : String := ⟨process_mkdocs_to_markdown_core reader.data⟩
  let plaintext : String := ⟨process_markdown_to_plaintext_core markdown.data⟩
  let changelog :=
    page.meta.changelog.getD "\n## such empty, much void :nounproject-doge:"
  let official : String := ⟨dedent (page.meta.official_license_text.getD "").data⟩
  let spdx ← require page.meta.spdx_id "spdx_id"
  let pv := get_plain_version (pyLowerStr spdx) production store
  let tags := get_tags page.meta
  let has_official := !official.data.isEmpty
  let embed_url :=
    "https://plainlicense.org/embed/" ++ pyLowerStr spdx ++ ".html"
  .ok
    ({ license_type := license_type
       title := title
       year := year
       reader_license_text := reader
       markdown_license_text := markdown
       plaintext_license_text := plaintext
       changelog_text := changelog
       official_license_text := official
       plain_version := pv.1
       tags := tags
       has_official := has_official
       embed_url := embed_url },
      pv.2)

/-- `n` spaces. -/
def sp (n : Nat) : String := ⟨List.replicate n ' '⟩

/-- `LicenseContent.tabify` (`license_factory.py` lines 515-533). -/
def tabify (text title : String) (level : Nat) (icon : String) : String :=
  let indentation := sp (4 * level)
  let title_indent := if level = 1 then "" else " " ++ sp (4 * (level - 1))
  let icon2 := if icon = "" then "" else icon ++ " "
  let title_line := title_indent ++ "=== \"" ++ icon2 ++ title ++ "\" "
  title_line ++ "\n\n" ++
    (⟨indentPy indentation.data (dedent text.data)⟩ : String) ++ "\n"

/-- `LicenseContent.blockify` (`license_factory.py` lines 535-564); the
call sites only pass flat string options, so the dict-valued option branch
is not modelled. -/
def blockify (text kind title : String) (separator_count : Nat)
    (options : List (String × String)) : String :=
  let separator : String := ⟨List.replicate separator_count '/'⟩
  let option_block := String.join (options.map fun kv =>
    if kv.2 = "" then ""
    else sp (separator_count + 1) ++ kv.1 ++ ": " ++ kv.2 ++ "\n")
  "\n" ++ separator ++ " " ++ kind ++ " | " ++ title ++ "\n" ++ option_block ++
    "\n" ++ text ++ "\n" ++ separator ++ "\n"

/-- `LicenseContent.not_advice_text` (`license_factory.py` lines 683-690),
with the source f-string's uniform indentation already removed by `dedent`
(the interpolated links are single-line). -/
def not_advice_text (page : PageCtx) : String :=
  "We are not lawyers. This is not legal advice. If you need legal advice, talk to a lawyer. You use this license at your own risk.\n\nWe are normal people who want to make licenses accessible for everyone. We hope that our plain language helps you and anyone else understand this license  (including lawyers). If you see a mistake or want to suggest a change, please [submit an issue on GitHub](" ++
    pyStr page.meta.github_issues_link ++
    " \"Submit an issue on GitHub\") or [edit this page](" ++
    pyStr page.meta.github_edit_link ++
    " \"edit on GitHub\").\n"

/-- `LicenseContent.not_official_text` (`license_factory.py` lines 692-701),
dedented as in the source.  The `meta["original_name"]`-style bracket reads
are modelled with a default, as the blocks are only rendered for pages whose
construction succeeded. -/
def not_official_text (page : PageCtx) (lc : LicenseContent) : String :=
  if lc.has_official then
    "Plain License is not affiliated with the original " ++
    pyStripStr (page.meta.original_name.getD "") ++
    " authors or " ++
    pyStripStr (page.meta.original_organization.getD "") ++
    ". **Our plain language versions are not official** and are not endorsed by the original authors. Our licenses may also include different terms or additional information. We try to capture the *legal meaning* of the original license, but we can\x27t guarantee our license provides the same legal protections.\n\nIf you want to use the " ++
    pyStripStr (page.meta.plain_name.getD "") ++
    ", start by reading the official " ++
    pyStripStr (page.meta.original_name.getD "") ++
    " license text. You can find the official " ++
    pyStripStr (page.meta.original_name.getD "") ++
    " [here](" ++
    pyStripStr (page.meta.original_url.getD "") ++
    " \"check out the official " ++
    pyStripStr (page.meta.original_name.getD "") ++
    "\"). If you have questions about the " ++
    pyStripStr (page.meta.original_name.getD "") ++
    ", you should talk to a lawyer.\n"
  else ""

/-- `LicenseContent.disclaimer_block` (`license_factory.py` lines 703-717). -/
def disclaimer_block (page : PageCtx) (lc : LicenseContent) : String :=
  if !lc.has_official then
    blockify (not_advice_text page)
      (if lc.has_official then "tab" else "warning") "legal advice" 3 []
  else
    let not_advice := tabify (not_advice_text page) "legal advice" 1 ""
    let not_official_title :=
      "the official " ++ pyStr page.meta.original_name
    let not_official := tabify (not_official_text page lc) not_official_title 1 ""
    "<div class=\x27admonition warning\x27><p class=\x27admonition-title\x27>The " ++
      (page.meta.plain_name.getD "") ++ " isn\x27t...</p>\n\n" ++
      not_advice ++ not_official ++ "</div>"

/-- `LicenseContent.interpretation_block` (`license_factory.py` lines
566-593).  In the plaintext branch the factory calls
`process_markdown_to_plaintext(interpretation_text)`, whose
`text or self.markdown_license_text` fallback substitutes the markdown
license text when the interpretation text is empty. -/
def interpretation_block (page : PageCtx) (lc : LicenseContent)
    (kind : String) : String :=
  if !lc.has_official then ""
  else if kind = "reader" then
    blockify (⟨dedent (page.meta.interpretation_text.getD "").data⟩ : String)
      "note" (page.meta.interpretation_title.getD "") 4 []
  else if kind = "markdown" then
    "### " ++ pyStr page.meta.interpretation_title ++ "\n\n" ++
      wrap_text ⟨dedent (page.meta.interpretation_text.getD "").data⟩
  else if kind = "plaintext" then
    let arg := page.meta.interpretation_text.getD ""
    let src := if arg = "" then lc.markdown_license_text else arg
    let as_plaintext : String := ⟨process_markdown_to_plaintext_core src.data⟩
    let title0 := page.meta.interpretation_title.getD ""
    let title1 : String :=
      ⟨plainNameTrimSubAux (pyUpper (page.meta.plain_name.getD "").data)
        title0.data.length title0.data⟩
    pyUpperStr title1 ++ "\n\n" ++ (⟨dedent as_plaintext.data⟩ : String)
  else ""

/-- `LicenseContent.get_header_block` (`license_factory.py` lines 595-624). -/
def get_header_block (page : PageCtx) (lc : LicenseContent)
    (kind : String) : String :=
  let original_version := page.meta.original_version.getD ""
  let plain_version := lc.plain_version
  if kind = "reader" then
    let title := "\n<h1 class=\x27license-title\x27>" ++
      (page.meta.plain_name.getD "") ++ "</h1>"
    let original_version_html :=
      if original_version ≠ "" then
        "<span class=\x27original_version\x27>original version: " ++
          original_version ++ "</span><br />"
      else ""
    let plain_version_html :=
      "<span class=\x27plain_version\x27>plain version: " ++ plain_version ++
        "</span>"
    let version_info := "<div class=\x27version-info\x27>" ++
      original_version_html ++ plain_version_html ++ "</div>"
    "<div class=\"license-header\">" ++ title ++ version_info ++ "</div>"
  else if kind = "markdown" then
    let title := "\n# " ++ pyStr page.meta.plain_name
    let original_text :=
      if original_version ≠ "" then
        "original version: " ++ original_version ++ "  |  "
      else ""
    "> " ++ original_text ++ "plain version: " ++ plain_version ++ "\n" ++ title
  else
    let title := "\n" ++ pyUpperStr (page.meta.plain_name.getD "")
    let original_text :=
      if original_version ≠ "" then
        "original version: " ++ original_version ++ "  |  "
      else ""
    original_text ++ "plain version: " ++ plain_version ++ "\n" ++ title

/-- `LicenseContent.reader` (`license_factory.py` lines 719-736): the body
f-string carries the source's 16-space continuation indent, which `dedent`
then processes. -/
def readerTab (page : PageCtx) (lc : LicenseContent) : String :=
  let header_block := get_header_block page lc "reader"
  let text : String :=
    if lc.has_official then
      ⟨dedent ("\n" ++ sp 16 ++ header_block ++ "\n" ++ sp 16 ++
        lc.reader_license_text ++ "\n" ++ sp 16 ++
        interpretation_block page lc "reader" ++ "\n" ++ sp 16 ++
        disclaimer_block page lc ++ "\n" ++ sp 16).data⟩
    else
      ⟨dedent ("\n" ++ sp 16 ++ header_block ++ "\n" ++ sp 16 ++
        lc.reader_license_text ++ "\n" ++ sp 16 ++
        disclaimer_block page lc ++ "\n" ++ sp 16).data⟩
  tabify text "reader" 1 ":material-book-open-variant:"

/-- `LicenseContent.markdown` (`license_factory.py` lines 738-744). -/
def markdownTab (page : PageCtx) (lc : LicenseContent) : String :=
  let header_block := get_header_block page lc "markdown"
  let body := wrap_text ⟨dedent ("\n" ++ lc.markdown_license_text ++ "\n").data⟩
  let text := "\n\n```markdown title=\"" ++ (page.meta.plain_name.getD "") ++
    " in Github-style markdown\"\n\n" ++ header_block ++ "\n\n" ++ body ++
    wrap_text (interpretation_block page lc "markdown") ++ "\n```\n\n" ++
    disclaimer_block page lc ++ "\n"
  tabify text "markdown" 1 ":octicons-markdown-24:"

/-- `LicenseContent.plaintext` (`license_factory.py` lines 746-752). -/
def plaintextTab (page : PageCtx) (lc : LicenseContent) : String :=
  let header_block := get_header_block page lc "plaintext"
  let body := wrap_text ⟨dedent ("\n" ++ lc.plaintext_license_text ++ "\n").data⟩
  let text := "\n\n```plaintext title=\"" ++ (page.meta.plain_name.getD "") ++
    " in plain text\"\n\n" ++ header_block ++ "\n\n" ++ body ++
    wrap_text (interpretation_block page lc "plaintext") ++ "\n```\n\n" ++
    disclaimer_block page lc ++ "\n"
  tabify text "plaintext" 1 ":nounproject-txt:"

/-- `LicenseContent.changelog` (`license_factory.py` lines 754-757). -/
def changelogTab (lc : LicenseContent) : String :=
  tabify lc.changelog_text "changelog" 1 ":material-history:"

/-- `LicenseContent.official` (`license_factory.py` lines 759-769). -/
def officialTab (page : PageCtx) (lc : LicenseContent) : String :=
  if !lc.has_official then ""
  else
    let text :=
      if page.meta.link_in_original.getD false then lc.official_license_text
      else lc.official_license_text ++ "\n\n" ++ pyStr page.meta.official_link
    tabify text "official" 1 ":material-license:"

/-- `LicenseContent.embed_link` (`license_factory.py` lines 771-794),
dedented and stripped as in the source (the interpolations are
single-line). -/
def embed_link (page : PageCtx) (lc : LicenseContent) : String :=
  "# Embedding Your License\n\n```html title=\"add this to your site\x27s html\"\n\n<iframe src=\"" ++
    lc.embed_url ++
    "\"\nstyle=\"position: absolute; top: 0; left: 0; width: 100%; height: 100%;\nborder: 1px solid #E4C580; border-radius: 8px; overflow: hidden auto;\"\ntitle=\"" ++
    lc.title ++
    "\" loading=\"lazy\" sandbox=\"allow-scripts\"\nonload=\"if(this.contentDocument.body.scrollHeight > 400)\nthis.style.height = this.contentDocument.body.scrollHeight + \x27px\x27;\"\nreferrerpolicy=\"no-referrer-when-downgrade\">\n    <p>Your browser does not support iframes. View " ++
    lc.title ++
    " at:\n        <a href=\"" ++
    page.url ++
    "\">\n            plainlicense.org\n        </a>\n    </p>\n</iframe>\n\n```"

/-- `LicenseContent.embed_instructions` (`license_factory.py` lines
796-873), dedented as in the source. -/
def embed_instructions (lc : LicenseContent) : String :=
  "\n\nThe above code will embed the license in your site. It uses an iframe to display the license as it appears on Plain License. This also sandboxes the license to prevent it from affecting your site.\n\n1. **Copy the code above** using the copy button\n2. **Paste it** into your HTML where you want the license to appear\n3. **Adjust the size** (optional):\n\n   - The default width is 100% (fills the container)\n   - The default height is either the content height or 1024px, whichever is smaller.\n   - The next section provides more details on customizing the size.\n\n## Customizing Your Embedded License\n\n### Changing the Size\n\nCommon size adjustments in the `style` attribute:\n\n```html\n\n<!-- Full width, taller -->\nstyle=\"width: 100%; height: 800px;\"\n\n<!-- Fixed width, default height -->\nstyle=\"width: 800px; height: 500px;\"\n\n<!-- Full width, minimum height -->\nstyle=\"width: 100%; min-height: 500px;\"\n\n```\n\n## Color Scheme Preference\n\nThe embedded license will match your visitors\x27 system preferences for light or dark mode by default.\n\n### Forcing a Specific Theme\n\nTo force a specific theme, add `?theme=` to the URL, along with `light` or `dark`:\n\n- For light theme: `src=\"" ++
    lc.embed_url ++
    "?theme=light\"`\n- For dark theme: `src=\"" ++
    lc.embed_url ++
    "?theme=dark\"`\n\n### Syncing the License Theme with Your Site (more advanced)\n\nYou can optionally sync the license\x27s light/dark theme to your site\x27s theme. You will need to send the embedded license page a message to tell it what theme your site is currently using. You can include this code in your script bundle or HTML:\n\n```javascript title=\"sync the light/dark theme with your site\"\n\nconst syncTheme = () => \x7b\nconst iframe = document.getElementById(\"license-embed\");\nconst theme = document.documentElement.classList.contains(\"dark\") ? \"dark\" : \"light\";\niframe.contentWindow.postMessage(\x7b theme \x7d, \"https://plainlicense.org\");\n\x7d;\n\n```\n\nIf your site has a toggle switch for changing themes, you can link it to the embedded license. Set up the toggle to send a `themeChange` event and add a listener to dispatch the same message. We can\x27t provide specific code for that because it depends on your setup.\n\nOnce your toggle switch is set up to send a `themeChange` event, you need to add a listener to dispatch the same message as before:\n\n```javascript title=\"toggle license theme with site theme\"\n\nconst syncTheme = () => \x7b\nconst iframe = document.getElementById(\"license-embed\");\nconst theme = document.documentElement.classList.contains(\"dark\") ? \"dark\" : \"light\";\niframe.contentWindow.postMessage(\x7b theme \x7d, \"https://plainlicense.org\");\n\x7d;\ndocument.addEventListener(\x27themeChange\x27, syncTheme);\n\n```\n\n## Need Help?\n\nBring your questions to our [GitHub Discussions](https://github.com/seekinginfiniteloop/PlainLicense/discussions \"visit Plain License\x27s discussions page\") for help and support.\n"

/-- `LicenseContent.embed` (`license_factory.py` lines 875-880). -/
def embedTab (page : PageCtx) (lc : LicenseContent) : String :=
  tabify (embed_link page lc ++ embed_instructions lc) "html" 1
    ":material-language-html5:"

/-- `LicenseContent.license_content` (`license_factory.py` lines 897-912). -/
def license_content (page : PageCtx) (lc : LicenseContent) : String :=
  let tabs := readerTab page lc ++ "\n" ++ embedTab page lc ++ "\n" ++
    markdownTab page lc ++ "\n" ++ plaintextTab page lc ++ "\n" ++
    changelogTab lc
  let tabs := if lc.has_official then tabs ++ "\n" ++ officialTab page lc
    else tabs
  let outro :=
    if page.meta.outro.getD "" ≠ "" then
      "\n\n" ++ page.meta.outro.getD "" ++ "\n"
    else "\n"
  blockify tabs "admonition"
    ("<span class=\x27detail-title-highlight\x27>The " ++
      pyStr page.meta.plain_name ++ "</span>") 6
    [("type", "license")] ++ outro

/-- Modelled from the spec's words: the tab blocks of the assembled license
content — their titles, in order, with the official tab present exactly when
the license content includes it. -/
def licenseTabs (page : PageCtx) (lc : LicenseContent) :
    List (String × String) :=
  [("reader", readerTab page lc), ("html", embedTab page lc),
   ("markdown", markdownTab page lc), ("plaintext", plaintextTab page lc),
   ("changelog", changelogTab lc)] ++
    (if lc.has_official then [("official", officialTab page lc)] else [])

theorem mk_err_plain_name {page : PageCtx} (year : String) (production : Bool)
    (store : PackageStore) (h : page.meta.plain_name = none) :
    mkLicenseContent page year production store =
      .error (.keyError "plain_name") := by
  simp [mkLicenseContent, h, require, Except.instMonad, Bind.bind, Except.bind]

theorem mk_err_reader {page : PageCtx} (year : String) (production : Bool)
    (store : PackageStore) {pn : String} (hpn : page.meta.plain_name = some pn)
    (h : page.meta.reader_license_text = none) :
    mkLicenseContent page year production store =
      .error (.keyError "reader_license_text") := by
  simp [mkLicenseContent, hpn, h, require, Except.instMonad, Bind.bind,
    Except.bind]

theorem mk_err_spdx {page : PageCtx} (year : String) (production : Bool)
    (store : PackageStore) {pn rr : String}
    (hpn : page.meta.plain_name = some pn)
    (hr : page.meta.reader_license_text = some rr)
    (h : page.meta.spdx_id = none) :
    mkLicenseContent page year production store =
      .error (.keyError "spdx_id") := by
  simp [mkLicenseContent, hpn, hr, h, require, Except.instMonad, Bind.bind,
    Except.bind]

theorem mk_ok {page : PageCtx} (year : String) (production : Bool)
    (store : PackageStore) {pn rr spdx : String}
    (hpn : page.meta.plain_name = some pn)
    (hr : page.meta.reader_license_text = some rr)
    (hs : page.meta.spdx_id = some spdx) :
    mkLicenseContent page year production store =
      .ok
        ({ license_type := get_license_type page
           title := "The " ++ pn
           year := year
           reader_license_text := replace_year year rr
           markdown_license_text :=
             ⟨process_mkdocs_to_markdown_core (replace_year year rr).data⟩
           plaintext_license_text :=
             ⟨process_markdown_to_plaintext_core
               (process_mkdocs_to_markdown_core (replace_year year rr).data)⟩
           changelog_text := page.meta.changelog.getD
             "\n## such empty, much void :nounproject-doge:"
           official_license_text :=
             ⟨dedent (page.meta.official_license_text.getD "").data⟩
           plain_version :=
             (get_plain_version (pyLowerStr spdx) production store).1
           tags := get_tags page.meta
           has_official :=
             !(dedent (page.meta.official_license_text.getD "").data).isEmpty
           embed_url :=
             "https://plainlicense.org/embed/" ++ pyLowerStr spdx ++ ".html" },
          (get_plain_version (pyLowerStr spdx) production store).2) := by
  simp [mkLicenseContent, hpn, hr, hs, require, Except.instMonad, Bind.bind,
    Except.bind]

theorem foldl_commonPre_nil : ∀ l : List (List Char),
    List.foldl commonPre [] l = [] := by
  intro l
  induction l with
  | nil => rfl
  | cons x xs ih =>
    show List.foldl commonPre (commonPre [] x) xs = []
    rw [show commonPre [] x = [] from by cases x <;> rfl]
    exact ih

theorem splitNl_ne_nil : ∀ l : List Char, splitNl l ≠ [] := by
  intro l
  cases l with
  | nil => simp [splitNl]
  | cons c cs =>
    by_cases hc : c = '\n'
    · simp [splitNl, hc]
    · simp only [splitNl, hc, if_neg, not_false_iff]
      cases splitNl cs <;> simp

theorem splitNl_head {c : Char} (hc : ¬ c = '\n') (rest : List Char) :
    ∃ l1 ls1, splitNl (c :: rest) = (c :: l1) :: ls1 := by
  cases h' : splitNl rest with
  | nil => exact absurd h' (splitNl_ne_nil rest)
  | cons a b => exact ⟨a, b, by simp [splitNl, hc, h']⟩

theorem intercalate_head_cons (s : List Char) (c : Char) (l : List Char)
    (ls : List (List Char)) : List.intercalate s ((c :: l) :: ls) ≠ [] := by
  cases ls with
  | nil => simp [List.intercalate, List.intersperse]
  | cons y ys => simp [List.intercalate, List.intersperse]

theorem dropWhile_len_le (p : Char → Bool) :
    ∀ l : List Char, (l.dropWhile p).length ≤ l.length := by
  intro l
  induction l with
  | nil => simp
  | cons c cs ih =>
    by_cases hc : p c = true
    · rw [List.dropWhile_cons_of_pos hc]
      simp only [List.length_cons]
      omega
    · rw [List.dropWhile_cons_of_neg (by simp [hc])]

theorem isPySpace_ne_nl_st {c : Char} (hc : isPySpace c = false) :
    ¬ c = '\n' ∧ (c = ' ' || c = '\t') = false := by
  constructor
  · intro h
    rw [h] at hc
    exact absurd hc (by decide)
  · by_contra h
    rw [Bool.not_eq_false, Bool.or_eq_true, decide_eq_true_eq,
      decide_eq_true_eq] at h
    rcases h with rfl | rfl <;> exact absurd hc (by decide)

theorem dedent_ne_nil_of_head {c : Char} {rest : List Char}
    (hc : isPySpace c = false) : dedent (c :: rest) ≠ [] := by
  obtain ⟨hnl, hst⟩ := isPySpace_ne_nl_st hc
  obtain ⟨l1, ls1, hsplit⟩ := splitNl_head hnl rest
  unfold dedent
  rw [hsplit]
  simp only [List.map_cons, isBlankLine_false hst, if_neg, Bool.false_eq_true,
    not_false_iff, List.filter, List.isEmpty_cons, Bool.not_false]
  rw [lineIndent_nil hst]
  simp only [foldl_commonPre_nil, List.isEmpty_nil, if_pos]
  exact intercalate_head_cons _ c l1 _

theorem pyStrip_head_not_space {c : Char} {rest : List Char}
    (h : pyStrip (c :: rest) = c :: rest) : isPySpace c = false := by
  by_contra hcon
  rw [Bool.not_eq_false] at hcon
  have h1 : (pyStrip (c :: rest)).length ≤
      (List.dropWhile isPySpace (c :: rest)).length := by
    unfold pyStrip
    rw [List.length_reverse]
    calc (((c :: rest).dropWhile isPySpace).reverse.dropWhile
        isPySpace).length
        ≤ ((c :: rest).dropWhile isPySpace).reverse.length :=
          dropWhile_len_le _ _
      _ = ((c :: rest).dropWhile isPySpace).length := List.length_reverse _
  rw [List.dropWhile_cons_of_pos hcon] at h1
  have h2 : (List.dropWhile isPySpace rest).length ≤ rest.length :=
    dropWhile_len_le _ _
  rw [h] at h1
  simp only [List.length_cons] at h1
  omega

/-- After whitespace-stripping (as `clean_content` applies to every page
metadata value), `textwrap.dedent` empties a string exactly when the string
was already empty. -/
theorem dedent_stripped_iff {l : List Char} (h : pyStrip l = l) :
    (dedent l = [] ↔ l = []) := by
  constructor
  · intro hd
    cases l with
    | nil => rfl
    | cons c rest =>
      exact absurd hd (dedent_ne_nil_of_head (pyStrip_head_not_space h))
  · intro hl
    subst hl
    rfl

theorem gpv_store_other {k k' : String} {production : Bool}
    {store : PackageStore} (h : ¬ k' = k) :
    (get_plain_version k production store).2 k' = store k' := by
  cases hsk : store k with
  | none => simp [get_plain_version, hsk]
  | some pkg =>
    obtain ⟨ver⟩ := pkg
    cases ver with
    | none => simp [get_plain_version, hsk]
    | some v =>
      by_cases hv : v = ""
      · simp [get_plain_version, hsk, hv]
      · by_cases hc : (containsSub "development".data v.data && production) = true
        · simp [get_plain_version, hsk, hv, hc, h]
        · simp [get_plain_version, hsk, hv, hc]

theorem gpv_val_congr {k : String} {production : Bool}
    {s1 s2 : PackageStore} (h : s1 k = s2 k) :
    (get_plain_version k production s1).1 =
      (get_plain_version k production s2).1 := by
  cases hsk : s2 k with
  | none => simp [get_plain_version, h, hsk]
  | some pkg =>
    obtain ⟨ver⟩ := pkg
    cases ver with
    | none => simp [get_plain_version, h, hsk]
    | some v =>
      by_cases hv : v = ""
      · simp [get_plain_version, h, hsk, hv]
      · by_cases hc : (containsSub "development".data v.data && production) = true
        · simp [get_plain_version, h, hsk, hv, hc]
        · simp [get_plain_version, h, hsk, hv, hc]

theorem gpv_idem {k : String} {production : Bool} {store : PackageStore} :
    (get_plain_version k production
      ((get_plain_version k production store).2)).1 =
    (get_plain_version k production store).1 := by
  cases hsk : store k with
  | none => simp [get_plain_version, hsk]
  | some pkg =>
    obtain ⟨ver⟩ := pkg
    cases ver with
    | none => simp [get_plain_version, hsk]
    | some v =>
      by_cases hv : v = ""
      · simp [get_plain_version, hsk, hv]
      · by_cases hc : (containsSub "development".data v.data && production) = true
        · have hdev : containsSub "development".data "0.1.0".data = false := by
            decide
          have hne : ¬ ("0.1.0" : String) = "" := by decide
          simp [get_plain_version, hsk, hv, hc, hdev, hne]
        · simp [get_plain_version, hsk, hv, hc]

/-- Modelled from the spec's words: the tab blocks joined by single
newlines, as `license_content` concatenates them. -/
def joinTabs : List (String × String) → String
  | [] => ""
  | [t] => t.2
  | t :: rest => t.2 ++ "\n" ++ joinTabs rest

theorem license_content_tabs (page : PageCtx) (lc : LicenseContent) :
    license_content page lc =
      blockify (joinTabs (licenseTabs page lc)) "admonition"
        ("<span class=\x27detail-title-highlight\x27>The " ++
          pyStr page.meta.plain_name ++ "</span>") 6 [("type", "license")] ++
      (if page.meta.outro.getD "" ≠ "" then
        "\n\n" ++ page.meta.outro.getD "" ++ "\n"
      else "\n") := by
  unfold license_content licenseTabs
  cases h : lc.has_official <;>
    simp [h, joinTabs, String.append_assoc]

theorem licenseTabs_titles (page : PageCtx) (lc : LicenseContent) :
    (licenseTabs page lc).map Prod.fst =
      ["reader", "html", "markdown", "plaintext", "changelog"] ++
        (if lc.has_official then ["official"] else []) := by
  cases h : lc.has_official <;> simp [licenseTabs, h]

theorem str_eq_empty_iff (s : String) : s = "" ↔ s.data = [] := by
  constructor
  · intro h
    rw [h]
  · intro h
    cases s
    cases h
    rfl

/-- C4 (amended): for every successfully constructed LicenseContent whose
official text metadata is whitespace-stripped (as clean_content leaves it),
license_content assembles exactly the tab blocks of licenseTabs joined by
newlines inside one admonition; the titles contain exactly one reader, one
markdown, one plaintext and one changelog tab, and an official tab exactly
when the official text is non-empty. -/
theorem C4_license_blocks (page : PageCtx) (year : String) (production : Bool)
    (store : PackageStore) (lc : LicenseContent) (store2 : PackageStore)
    (h : mkLicenseContent page year production store = .ok (lc, store2))
    (hstrip : pyStrip (page.meta.official_license_text.getD "").data =
      (page.meta.official_license_text.getD "").data) :
    license_content page lc =
      blockify (joinTabs (licenseTabs page lc)) "admonition"
        ("<span class=\x27detail-title-highlight\x27>The " ++
          pyStr page.meta.plain_name ++ "</span>") 6 [("type", "license")] ++
      (if page.meta.outro.getD "" ≠ "" then
        "\n\n" ++ page.meta.outro.getD "" ++ "\n"
      else "\n") ∧
    ((licenseTabs page lc).map Prod.fst).count "reader" = 1 ∧
    ((licenseTabs page lc).map Prod.fst).count "markdown" = 1 ∧
    ((licenseTabs page lc).map Prod.fst).count "plaintext" = 1 ∧
    ((licenseTabs page lc).map Prod.fst).count "changelog" = 1 ∧
    (((licenseTabs page lc).map Prod.fst).count "official" = 1 ↔
      ¬ page.meta.official_license_text.getD "" = "") := by
  have hlc : lc.has_official =
      !(dedent (page.meta.official_license_text.getD "").data).isEmpty := by
    cases hpn : page.meta.plain_name with
    | none =>
      rw [mk_err_plain_name year production store hpn] at h
      exact absurd h (by simp)
    | some pn =>
      cases hr : page.meta.reader_license_text with
      | none =>
        rw [mk_err_reader year production store hpn hr] at h
        exact absurd h (by simp)
      | some rr =>
        cases hs : page.meta.spdx_id with
        | none =>
          rw [mk_err_spdx year production store hpn hr hs] at h
          exact absurd h (by simp)
        | some spdx =>
          rw [mk_ok year production store hpn hr hs] at h
          injection h with h2
          rw [Prod.mk.injEq] at h2
          rw [← h2.1]
  refine ⟨license_content_tabs page lc, ?_, ?_, ?_, ?_, ?_⟩
  · rw [licenseTabs_titles]
    cases hh : lc.has_official <;> simp [hh]
  · rw [licenseTabs_titles]
    cases hh : lc.has_official <;> simp [hh]
  · rw [licenseTabs_titles]
    cases hh : lc.has_official <;> simp [hh]
  · rw [licenseTabs_titles]
    cases hh : lc.has_official <;> simp [hh]
  · rw [licenseTabs_titles, hlc]
    by_cases hd :
        (dedent (page.meta.official_license_text.getD "").data).isEmpty = true
    · rw [hd]
      have hdl : dedent (page.meta.official_license_text.getD "").data = [] :=
        by simpa using hd
      have : page.meta.official_license_text.getD "" = "" := by
        rw [str_eq_empty_iff]
        exact (dedent_stripped_iff hstrip).mp hdl
      simp [this]
    · rw [Bool.not_eq_true] at hd
      rw [hd]
      have hdl : ¬ dedent (page.meta.official_license_text.getD "").data = [] :=
        by simpa using hd
      have : ¬ page.meta.official_license_text.getD "" = "" := by
        rw [str_eq_empty_iff]
        intro hnil
        exact hdl ((dedent_stripped_iff hstrip).mpr hnil)
      simp [this]

/-- An empty package store: no package.json exists. -/
def storeEmpty : PackageStore := fun _ => none

/-- A license page whose official_license_text is a single space:
non-empty, yet dedent maps it to the empty string. -/
def pageC4 : PageCtx :=
  { title := some "The X License", url := "/licenses/public-domain/x/",
    meta := { plain_name := some "X", reader_license_text := some "Text.",
              spdx_id := some "X", official_license_text := some " " } }

/-- C4 counterexample: a page whose official_license_text is the non-empty
string " " yields a LicenseContent with no official tab at all, because
dedent turns the whitespace-only text into the empty string before
has_official is computed. -/
theorem C4_official_counterexample :
    ¬ pageC4.meta.official_license_text.getD "" = "" ∧
    (mkLicenseContent pageC4 "2026" false storeEmpty).map
        (fun p => ((licenseTabs pageC4 p.1).map Prod.fst).count "official") =
      .ok 0 := by
  constructor
  · decide
  · rfl

/-- A well-formed license page with stripped, non-empty official text. -/
def pageC4w : PageCtx :=
  { title := some "The X License", url := "/licenses/public-domain/x/",
    meta := { plain_name := some "X", reader_license_text := some "Text.",
              spdx_id := some "X",
              official_license_text := some "Official." } }

/-- Fallback record for projecting a successful construction. -/
def lcDummy : LicenseContent :=
  { license_type := "", title := "", year := "", reader_license_text := "",
    markdown_license_text := "", plaintext_license_text := "",
    changelog_text := "", official_license_text := "", plain_version := "",
    tags := none, has_official := false, embed_url := "" }

def lcC4 : LicenseContent :=
  match mkLicenseContent pageC4w "2026" false storeEmpty with
  | .ok p => p.1
  | .error _ => lcDummy

def storeC4 : PackageStore :=
  match mkLicenseContent pageC4w "2026" false storeEmpty with
  | .ok p => p.2
  | .error _ => storeEmpty

/-- C4 witness: the amended theorem instantiated at a concrete page. -/
theorem C4_license_blocks_witness :
    license_content pageC4w lcC4 =
      blockify (joinTabs (licenseTabs pageC4w lcC4)) "admonition"
        ("<span class=\x27detail-title-highlight\x27>The " ++
          pyStr pageC4w.meta.plain_name ++ "</span>") 6 [("type", "license")] ++
      (if pageC4w.meta.outro.getD "" ≠ "" then
        "\n\n" ++ pageC4w.meta.outro.getD "" ++ "\n"
      else "\n") ∧
    ((licenseTabs pageC4w lcC4).map Prod.fst).count "reader" = 1 ∧
    ((licenseTabs pageC4w lcC4).map Prod.fst).count "markdown" = 1 ∧
    ((licenseTabs pageC4w lcC4).map Prod.fst).count "plaintext" = 1 ∧
    ((licenseTabs pageC4w lcC4).map Prod.fst).count "changelog" = 1 ∧
    (((licenseTabs pageC4w lcC4).map Prod.fst).count "official" = 1 ↔
      ¬ pageC4w.meta.official_license_text.getD "" = "") :=
  C4_license_blocks pageC4w "2026" false storeEmpty lcC4 storeC4 rfl (by decide)

/-- The LicenseContent a page constructs, if construction succeeds. -/
def mkLC (page : PageCtx) (year : String) (production : Bool)
    (store : PackageStore) : Option LicenseContent :=
  match mkLicenseContent page year production store with
  | .ok p => some p.1
  | .error _ => none

/-- The package store after a page's construction (construction is the only
store writer; a failed construction leaves the store unchanged). -/
def mkStore (page : PageCtx) (year : String) (production : Bool)
    (store : PackageStore) : PackageStore :=
  match mkLicenseContent page year production store with
  | .ok p => p.2
  | .error _ => store

theorem mkLC_some {page : PageCtx} (year : String) (production : Bool)
    (store : PackageStore) {pn rr spdx : String}
    (hpn : page.meta.plain_name = some pn)
    (hr : page.meta.reader_license_text = some rr)
    (hs : page.meta.spdx_id = some spdx) :
    mkLC page year production store =
      some
        { license_type := get_license_type page
          title := "The " ++ pn
          year := year
          reader_license_text := replace_year year rr
          markdown_license_text :=
            ⟨process_mkdocs_to_markdown_core (replace_year year rr).data⟩
          plaintext_license_text :=
            ⟨process_markdown_to_plaintext_core
              (process_mkdocs_to_markdown_core (replace_year year rr).data)⟩
          changelog_text := page.meta.changelog.getD
            "\n## such empty, much void :nounproject-doge:"
          official_license_text :=
            ⟨dedent (page.meta.official_license_text.getD "").data⟩
          plain_version :=
            (get_plain_version (pyLowerStr spdx) production store).1
          tags := get_tags page.meta
          has_official :=
            !(dedent (page.meta.official_license_text.getD "").data).isEmpty
          embed_url :=
            "https://plainlicense.org/embed/" ++ pyLowerStr spdx ++ ".html" } :=
  by rw [mkLC, mk_ok year production store hpn hr hs]

theorem mkStore_some {page : PageCtx} (year : String) (production : Bool)
    (store : PackageStore) {pn rr spdx : String}
    (hpn : page.meta.plain_name = some pn)
    (hr : page.meta.reader_license_text = some rr)
    (hs : page.meta.spdx_id = some spdx) :
    mkStore page year production store =
      (get_plain_version (pyLowerStr spdx) production store).2 :=
  by rw [mkStore, mk_ok year production store hpn hr hs]

theorem mkLC_congr {page : PageCtx} (year : String) (production : Bool)
    {s1 s2 : PackageStore} {spdx : String}
    (hs : page.meta.spdx_id = some spdx)
    (hag : s1 (pyLowerStr spdx) = s2 (pyLowerStr spdx)) :
    mkLC page year production s1 = mkLC page year production s2 := by
  cases hpn : page.meta.plain_name with
  | none =>
    rw [mkLC, mkLC, mk_err_plain_name year production s1 hpn,
      mk_err_plain_name year production s2 hpn]
  | some pn =>
    cases hr : page.meta.reader_license_text with
    | none =>
      rw [mkLC, mkLC, mk_err_reader year production s1 hpn hr,
        mk_err_reader year production s2 hpn hr]
    | some rr =>
      rw [mkLC_some year production s1 hpn hr hs,
        mkLC_some year production s2 hpn hr hs, gpv_val_congr hag]

/-- C5 (confirmed): construction is pure in the page metadata and the
package store entry for the page's own SPDX id.  First conjunct: another
license page with a different SPDX id never affects this page's rendered
LicenseContent through the shared store (the only shared state the factory
touches).  Second conjunct: re-running construction after its own store
write yields the same LicenseContent, so the result is a function of the
metadata at call time. -/
theorem C5_rendering_purity (page pageA : PageCtx) (year : String)
    (production : Bool) (store : PackageStore) (spdxA spdxB : String)
    (hA : pageA.meta.spdx_id = some spdxA)
    (hB : page.meta.spdx_id = some spdxB)
    (hk : ¬ pyLowerStr spdxA = pyLowerStr spdxB) :
    mkLC page year production (mkStore pageA year production store) =
      mkLC page year production store ∧
    mkLC page year production (mkStore page year production store) =
      mkLC page year production store := by
  constructor
  · have hag : (mkStore pageA year production store) (pyLowerStr spdxB) =
        store (pyLowerStr spdxB) := by
      cases hpnA : pageA.meta.plain_name with
      | none => rw [mkStore, mk_err_plain_name year production store hpnA]
      | some pnA =>
        cases hrA : pageA.meta.reader_license_text with
        | none => rw [mkStore, mk_err_reader year production store hpnA hrA]
        | some rrA =>
          rw [mkStore_some year production store hpnA hrA hA]
          exact gpv_store_other (fun he => hk he.symm)
    exact mkLC_congr year production hB hag
  · cases hpn : page.meta.plain_name with
    | none =>
      rw [mkStore, mk_err_plain_name year production store hpn]
    | some pn =>
      cases hr : page.meta.reader_license_text with
      | none =>
        rw [mkStore, mk_err_reader year production store hpn hr]
      | some rr =>
        rw [mkStore_some year production store hpn hr hB,
          mkLC_some year production _ hpn hr hB,
          mkLC_some year production store hpn hr hB, gpv_idem]

/-- Witness page for purity: SPDX id MIT-B, development version on file. -/
def pageC5 : PageCtx :=
  { title := some "The MIT-B License", url := "/licenses/permissive/mit-b/",
    meta := { plain_name := some "MIT-B", reader_license_text := some "Text.",
              spdx_id := some "MIT-B" } }

/-- A second license page with a different SPDX id, MIT-A. -/
def pageC5a : PageCtx :=
  { title := some "The MIT-A License", url := "/licenses/permissive/mit-a/",
    meta := { plain_name := some "MIT-A", reader_license_text := some "Text.",
              spdx_id := some "MIT-A" } }

/-- Store holding development versions for both pages, so both
constructions take the store-writing branch of get_plain_version. -/
def storeC5 : PackageStore := fun k =>
  if k = "mit-b" then some { version := some "0.0.1-development" }
  else if k = "mit-a" then some { version := some "0.0.2-development" }
  else none

/-- C5 witness: the purity theorem instantiated at concrete pages whose
constructions both write to the store. -/
theorem C5_rendering_purity_witness :
    mkLC pageC5 "2026" true (mkStore pageC5a "2026" true storeC5) =
      mkLC pageC5 "2026" true storeC5 ∧
    mkLC pageC5 "2026" true (mkStore pageC5 "2026" true storeC5) =
      mkLC pageC5 "2026" true storeC5 :=
  C5_rendering_purity pageC5 pageC5a "2026" true storeC5 "MIT-A" "MIT-B"
    rfl rfl (by decide)

/-- C6 (confirmed): a page missing any of the required metadata keys makes
LicenseContent construction fail with a KeyError, before any rendered
output exists for the page (the constructor returns only the error). -/
theorem C6_missing_key_raises (page : PageCtx) (year : String)
    (production : Bool) (store : PackageStore) :
    (page.meta.plain_name = none →
      mkLicenseContent page year production store =
        .error (.keyError "plain_name")) ∧
    (page.meta.reader_license_text = none →
      ∃ k, mkLicenseContent page year production store =
        .error (.keyError k)) ∧
    (page.meta.spdx_id = none →
      ∃ k, mkLicenseContent page year production store =
        .error (.keyError k)) := by
  refine ⟨fun h => mk_err_plain_name year production store h, ?_, ?_⟩
  · intro h
    cases hpn : page.meta.plain_name with
    | none => exact ⟨"plain_name", mk_err_plain_name year production store hpn⟩
    | some pn =>
      exact ⟨"reader_license_text",
        mk_err_reader year production store hpn h⟩
  · intro h
    cases hpn : page.meta.plain_name with
    | none => exact ⟨"plain_name", mk_err_plain_name year production store hpn⟩
    | some pn =>
      cases hr : page.meta.reader_license_text with
      | none =>
        exact ⟨"reader_license_text",
          mk_err_reader year production store hpn hr⟩
      | some rr =>
        exact ⟨"spdx_id", mk_err_spdx year production store hpn hr h⟩

/-- Pages each missing exactly one required metadata key. -/
def pageC6a : PageCtx :=
  { meta := { reader_license_text := some "Text.", spdx_id := some "X" } }

def pageC6b : PageCtx :=
  { meta := { plain_name := some "X", spdx_id := some "X" } }

def pageC6c : PageCtx :=
  { meta := { plain_name := some "X", reader_license_text := some "Text." } }

/-- C6 witness: each missing required key observed to produce a KeyError
at a concrete page. -/
theorem C6_missing_key_raises_witness :
    mkLicenseContent pageC6a "2026" false storeEmpty =
      .error (.keyError "plain_name") ∧
    (∃ k, mkLicenseContent pageC6b "2026" false storeEmpty =
      .error (.keyError k)) ∧
    (∃ k, mkLicenseContent pageC6c "2026" false storeEmpty =
      .error (.keyError k)) :=
  ⟨(C6_missing_key_raises pageC6a "2026" false storeEmpty).1 rfl,
    (C6_missing_key_raises pageC6b "2026" false storeEmpty).2.1 rfl,
    (C6_missing_key_raises pageC6c "2026" false storeEmpty).2.2 rfl⟩

/-- `page.url.split("/")[-2]` (`update_changelogs.py` line 25): the
second-to-last segment, or none where Python would raise IndexError. -/
def urlSecondLast (url : String) : Option String :=
  match (splitOnStr "/".data url.data).reverse with
  | _ :: p :: _ => some ⟨p⟩
  | _ => none

/-- The placeholder used when a per-license changelog file is absent. -/
def changelogPlaceholder : String :=
  "## such empty, much void :nounproject-doge:"

/-- `on_pre_page` (`update_changelogs.py` lines 17-30), with the ambient
inputs made explicit: whether the page is a license page, and the
changelog filesystem as a map from license name to file content.  Python
evaluates the `.get` default eagerly, so a malformed url (IndexError from
`[-2]`) is modelled as `none` even when `spdx_id` is present. -/
def on_pre_page (page : PageCtx) (isLicense : Bool)
    (clStore : String → Option String) : Option PageCtx :=
  if isLicense then
    match urlSecondLast page.url with
    | none => none
    | some fallback =>
      let license_name := page.meta.spdx_id.getD fallback
      let changelog_content := (clStore license_name).getD changelogPlaceholder
      some { page with
        meta := { page.meta with changelog := some changelog_content } }
  else some page

/-- C8 (confirmed): missing files become placeholders.  A missing
package.json makes get_plain_version return version 0.0.0 with the store
untouched; a missing changelog file makes on_pre_page set the page's
changelog metadata to the doge placeholder. -/
theorem C8_missing_file_placeholders (k : String) (production : Bool)
    (store : PackageStore) (page : PageCtx)
    (clStore : String → Option String) (name fallback : String)
    (hs : store k = none)
    (hurl : urlSecondLast page.url = some fallback)
    (hname : page.meta.spdx_id.getD fallback = name)
    (hcl : clStore name = none) :
    get_plain_version k production store = ("0.0.0", store) ∧
    ∃ page2, on_pre_page page true clStore = some page2 ∧
      page2.meta.changelog = some changelogPlaceholder := by
  refine ⟨by simp [get_plain_version, hs], ?_⟩
  refine ⟨{ page with
    meta := { page.meta with changelog := some changelogPlaceholder } },
    ?_, rfl⟩
  simp [on_pre_page, hurl, hname, hcl]

/-- A license page with no spdx_id metadata, so the url fallback is used. -/
def pageC8 : PageCtx :=
  { title := some "The Z License", url := "/licenses/source-available/z/",
    meta := { plain_name := some "Z", reader_license_text := some "Text." } }

/-- C8 witness: placeholders observed at a concrete page with an empty
package store and an empty changelog directory. -/
theorem C8_missing_file_placeholders_witness :
    get_plain_version "z" false storeEmpty = ("0.0.0", storeEmpty) ∧
    ∃ page2, on_pre_page pageC8 true (fun _ => none) = some page2 ∧
      page2.meta.changelog = some changelogPlaceholder :=
  C8_missing_file_placeholders "z" false storeEmpty pageC8 (fun _ => none)
    "z" "z" rfl (by decide) rfl rfl

/-- The Python values render_mapping traverses: strings, dicts, lists,
and anything else (passed through). -/
inductive Value where
  | vstr (s : String)
  | vdict (entries : List (String × Value))
  | vlist (items : List Value)
  | vother

/-- Outcome of `Template(value).render(**context)` on one string, with the
context abstracted into an oracle: a rendered string, a caught
TypeError/TemplateError, or any other exception. -/
inductive RenderOutcome where
  | ok (s : String)
  | templateError
  | otherError
deriving DecidableEq, Repr

/-- Exceptions render_mapping can propagate: AttributeError from calling
.items() on a non-dict, or an uncaught exception out of template
rendering. -/
inductive RenderErr where
  | attrError
  | uncaught
deriving DecidableEq, Repr

/-- `render_value` (`license_factory.py` lines 93-106): strings are
rendered with TypeError/TemplateError caught and the original retained;
dicts recurse through render_mapping; each LIST item is passed to
render_mapping itself (the source calls `render_mapping(item, context)`),
so a non-dict list item hits `.items()` and raises AttributeError.  Fuel
bounds the recursion depth (any fuel at least the value's depth is
enough). -/
def render_value (oracle : String → RenderOutcome) :
    Nat → Value → Except RenderErr Value
  | 0, _ => .error .uncaught
  | _ + 1, .vstr s =>
    match oracle s with
    | .ok r => .ok (.vstr r)
    | .templateError => .ok (.vstr s)
    | .otherError => .error .uncaught
  | fuel + 1, .vdict es =>
    (es.mapM fun kv =>
      (render_value oracle fuel kv.2).map fun v2 => (kv.1, v2)).map Value.vdict
  | fuel + 1, .vlist items =>
    (items.mapM fun (item : Value) =>
      match item with
      | .vdict es => render_value oracle fuel (.vdict es)
      | _ => (.error .attrError : Except RenderErr Value)).map Value.vlist
  | _ + 1, .vother => .ok .vother

/-- `render_mapping` (`license_factory.py` lines 90-108): the dict
comprehension over the mapping's entries in order; the first uncaught
exception propagates. -/
def render_mapping (oracle : String → RenderOutcome) (fuel : Nat)
    (mapping : List (String × Value)) :
    Except RenderErr (List (String × Value)) :=
  mapping.mapM fun kv =>
    (render_value oracle fuel kv.2).map fun v2 => (kv.1, v2)

/-- Modelled from the spec's words: rendering one string value, retaining
the original when the template raises. -/
def renderStrRetain (oracle : String → RenderOutcome) (s : String) : String :=
  match oracle s with
  | .ok r => r
  | _ => s

/-- A template oracle for which every string renders successfully except
the literal bad template, which raises a caught TemplateError. -/
def oracleC7 : String → RenderOutcome := fun s =>
  if s = "\x7b\x7bbad\x7d\x7d" then .templateError else .ok (s ++ "!")

/-- C7 counterexample: a mapping whose second value is a list containing a
string.  The only string-rendering failure is a caught TemplateError, yet
render_mapping does not return a mapping at all: the list item is passed
to render_mapping itself, whose .items() call on a string raises an
uncaught AttributeError, so the other keys are not rendered and an error
propagates. -/
theorem C7_render_counterexample :
    render_mapping oracleC7 3
      [("a", Value.vstr "\x7b\x7bbad\x7d\x7d"),
       ("b", Value.vlist [Value.vstr "y"])] =
      .error .attrError := rfl

/-- C7 (amended): for a mapping whose values are all strings, if no string
raises anything beyond TypeError/TemplateError, render_mapping returns the
mapping with every key still present and in order, each value rendered,
and the original string retained exactly where the template error was
caught; no error propagates.  (For list-valued entries the function is NOT
error-transparent: see the counterexample.) -/
theorem C7_render_mapping (oracle : String → RenderOutcome)
    (mapping : List (String × Value)) (fuel : Nat)
    (hflat : ∀ kv ∈ mapping, ∃ s, kv.2 = Value.vstr s)
    (hor : ∀ s, ¬ oracle s = RenderOutcome.otherError) :
    render_mapping oracle (fuel + 1) mapping =
      .ok (mapping.map fun kv =>
        (kv.1, match kv.2 with
          | Value.vstr s => Value.vstr (renderStrRetain oracle s)
          | v => v)) := by
  induction mapping with
  | nil => rfl
  | cons kv rest ih =>
    obtain ⟨s, hs⟩ := hflat kv (List.mem_cons_self kv rest)
    have hstep : render_value oracle (fuel + 1) kv.2 =
        .ok (Value.vstr (renderStrRetain oracle s)) := by
      rw [hs]
      cases hre : oracle s with
      | ok r => simp [render_value, renderStrRetain, hre]
      | templateError => simp [render_value, renderStrRetain, hre]
      | otherError => exact absurd hre (hor s)
    have hrest : render_mapping oracle (fuel + 1) rest =
        .ok (rest.map fun kv2 =>
          (kv2.1, match kv2.2 with
            | Value.vstr s2 => Value.vstr (renderStrRetain oracle s2)
            | v => v)) :=
      ih (fun kv2 h2 => hflat kv2 (List.mem_cons_of_mem kv h2))
    rw [render_mapping] at hrest ⊢
    rw [List.mapM_cons, hstep, hrest]
    simp only [List.map_cons, hs]
    rfl

/-- C7 witness: the amended theorem at a concrete two-entry mapping where
one template renders and the other raises a caught TemplateError. -/
theorem C7_render_mapping_witness :
    render_mapping oracleC7 3
      [("a", Value.vstr "hello"), ("b", Value.vstr "\x7b\x7bbad\x7d\x7d")] =
      .ok [("a", Value.vstr "hello!"),
           ("b", Value.vstr "\x7b\x7bbad\x7d\x7d")] := by
  have h := C7_render_mapping oracleC7
    [("a", Value.vstr "hello"), ("b", Value.vstr "\x7b\x7bbad\x7d\x7d")] 2
    (by
      intro kv hkv
      simp only [List.mem_cons, List.not_mem_nil, or_false] at hkv
      rcases hkv with h1 | h1
      · exact ⟨"hello", by rw [h1]⟩
      · exact ⟨"\x7b\x7bbad\x7d\x7d", by rw [h1]⟩)
    (by
      intro s
      rw [oracleC7]
      by_cases hsb : s = "\x7b\x7bbad\x7d\x7d" <;> simp [hsb])
  rw [h]
  rfl

/-- The NLTK-style stopword list at the top of `shame_counter.py`. -/
def STOPWORDS : List String :=
  ["i", "me", "my", "myself", "we", "our", "ours", "ourselves", "you", 
   "you\x27re", "you\x27ve", "you\x27ll", "you\x27d", "your", "yours", 
   "yourself", "yourselves", "he", "him", "his", "himself", "she", 
   "she\x27s", "her", "hers", "herself", "it", "it\x27s", "its", "itself", 
   "they", "them", "their", "theirs", "themselves", "what", "which", "who", 
   "whom", "this", "that", "that\x27ll", "these", "those", "am", "is", 
   "are", "was", "were", "be", "been", "being", "have", "has", "had", 
   "having", "do", "does", "did", "doing", "a", "an", "the", "and", "but", 
   "if", "or", "because", "as", "until", "while", "of", "at", "by", "for", 
   "with", "about", "against", "between", "into", "through", "during", 
   "before", "after", "above", "below", "to", "from", "up", "down", "in", 
   "out", "on", "off", "over", "under", "again", "further", "then", "once", 
   "here", "there", "when", "where", "why", "how", "all", "any", "both", 
   "each", "few", "more", "most", "other", "some", "such", "no", "nor", 
   "not", "only", "own", "same", "so", "than", "too", "very", "s", "t", 
   "can", "will", "just", "don", "don\x27t", "should", "should\x27ve", 
   "now", "d", "ll", "m", "o", "re", "ve", "y", "ain", "aren", "aren\x27t", 
   "couldn", "couldn\x27t", "didn", "didn\x27t", "doesn", "doesn\x27t", 
   "hadn", "hadn\x27t", "hasn", "hasn\x27t", "haven", "haven\x27t", "isn", 
   "isn\x27t", "ma", "mightn", "mightn\x27t", "mustn", "mustn\x27t", 
   "needn", "needn\x27t", "shan", "shan\x27t", "shouldn", "shouldn\x27t", 
   "wasn", "wasn\x27t", "weren", "weren\x27t", "won", "won\x27t", "wouldn", 
   "wouldn\x27t"]

/-- `_utils.strip_markdown`: remove `**`, `*`, backticks and `#`. -/
def strip_markdown (s : String) : String :=
  ⟨strReplace (strReplace (strReplace
    (strReplace s.data "**".data "".data) "*".data "".data)
    "`".data "".data) "#".data "".data⟩

/-- `re.findall(r"\b\w+\b", ...)` over the ASCII word class: the maximal
runs of word characters, in order. -/
def wordRunsAux : Nat → List Char → List (List Char)
  | 0, _ => []
  | _ + 1, [] => []
  | fuel + 1, c :: cs =>
    if isPyWord c then
      ((c :: cs).takeWhile isPyWord) ::
        wordRunsAux fuel ((c :: cs).dropWhile isPyWord)
    else wordRunsAux fuel cs

def findWords (l : List Char) : List String :=
  (wordRunsAux l.length l).map fun r => ⟨r⟩

/-- The word list `on_page_markdown` derives from a license text:
`strip_markdown(text).lower().replace("\n", " ")`, then the word runs. -/
def wordsOf (text : String) : List String :=
  findWords (strReplace (pyLower (strip_markdown text).data) "\n".data
    " ".data)

/-- First-position lookup in an insertion-ordered dict. -/
def lookupA {α : Type} : List (String × α) → String → Option α
  | [], _ => none
  | (k, v) :: rest, key => if k = key then some v else lookupA rest key

def lookupNat (l : List (String × Nat)) (k : String) : Nat :=
  (lookupA l k).getD 0

/-- `d[key] = v` on an insertion-ordered dict: replace in place, or append. -/
def setA {α : Type} : List (String × α) → String → α → List (String × α)
  | [], key, v => [(key, v)]
  | (k, w) :: rest, key, v =>
    if k = key then (k, v) :: rest else (k, w) :: setA rest key v

/-- Add `c` to `key`'s count (Counter addition for one key): increment in
place, or append. -/
def addA : List (String × Nat) → String → Nat → List (String × Nat)
  | [], key, c => [(key, c)]
  | (k, v) :: rest, key, c =>
    if k = key then (k, v + c) :: rest else (k, v) :: addA rest key c

/-- `Counter(iterable)`: counts keyed in first-occurrence order. -/
def countWords (ws : List String) : List (String × Nat) :=
  ws.foldl (fun acc w => addA acc w 1) []

/-- `Counter.update(other)`: add the other counter's counts in order. -/
def updateCounter (l wc : List (String × Nat)) : List (String × Nat) :=
  wc.foldl (fun acc kv => addA acc kv.1 kv.2) l

def sumCounts (wc : List (String × Nat)) : Nat := (wc.map Prod.snd).sum

/-- The ShameCounter singleton state: insertion-ordered dicts as
association lists.  Python float ratios are modelled as exact rationals
(the source's round-to-2-decimals float step is not modelled; no claim
depends on ratio values). -/
structure ShameState where
  shame_map : List (String × String)
  shame_counts : List (String × List (String × Nat))
  total_counts : List (String × Nat)
  ratios : List (String × ℚ)
  totals : List (String × Nat)

/-- The page fields `shame_counter.on_page_markdown` reads. -/
structure ShamePage where
  original_name : Option String := none
  official_license_text : Option String := none

/-- The entries `page.meta.update` receives on success. -/
structure ShameMeta where
  shame_counts : List (String × Nat)
  shame_total : Nat
  shame_ratio : ℚ
deriving DecidableEq, Repr

/-- `ShameCounter.stopwords`: stopwords that are not shame words. -/
def stopwordsOf (st : ShameState) : List String :=
  STOPWORDS.filter fun w => (lookupA st.shame_map w).isNone

def isShame (st : ShameState) (w : String) : Bool :=
  (lookupA st.shame_map w).isSome

/-- `sorted(..., key=item[1], reverse=True)`: stable descending sort. -/
def sortDescNat (l : List (String × Nat)) : List (String × Nat) :=
  l.mergeSort fun a b => decide (b.2 ≤ a.2)

def sortDescRat (l : List (String × ℚ)) : List (String × ℚ) :=
  l.mergeSort fun a b => decide (b.2 ≤ a.2)

/-- `ShameCounter.sort_all` (`shame_counter.py` lines 247-283): re-sort
every dict descending by value; the outer shame_counts dict keeps its
order while each per-license counter is sorted. -/
def sort_all (st : ShameState) : ShameState :=
  { st with
    total_counts := sortDescNat st.total_counts
    shame_counts := st.shame_counts.map fun p => (p.1, sortDescNat p.2)
    ratios := sortDescRat st.ratios
    totals := sortDescNat st.totals }

/-- `words = findall; filtered_words = [w for w in words if w not in
stopwords]` for one license text. -/
def filteredWords (st : ShameState) (text : String) : List String :=
  (wordsOf text).filter fun w => !(stopwordsOf st).contains w

/-- The `if word_count := Counter(...)` block of `on_page_markdown`
(`shame_counter.py` lines 330-343): no state change when no shame word
occurs, else overwrite the per-license entries and accumulate the
aggregate. -/
def shameWC (st : ShameState) (text : String) : List (String × Nat) :=
  countWords ((filteredWords st text).filter (isShame st))

def shameUpdate (st : ShameState) (license_name text : String) :
    ShameState :=
  if (shameWC st text).isEmpty then st
  else
    { st with
      shame_counts := setA st.shame_counts license_name (shameWC st text)
      total_counts := updateCounter st.total_counts (shameWC st text)
      ratios := setA st.ratios license_name
        (if (filteredWords st text).length ≠ 0 then
          ((sumCounts (shameWC st text) : ℚ) /
            (filteredWords st text).length) * 100
        else 0)
      totals := setA st.totals license_name (sumCounts (shameWC st text)) }

/-- `on_page_markdown` (`shame_counter.py` lines 299-356), with ambient
inputs explicit: the singleton state, whether the page is a license page,
and the page fields.  Returns the state as left by the call and either
the metadata update or the KeyError Python raises when
`shamer.totals[license_name]` (then `ratios[license_name]`) is read for a
license that was never counted; sort_all runs only after a successful
update. -/
def on_page_markdown (st : ShameState) (isLicense : Bool)
    (page : ShamePage) : ShameState × Except KeyErr (Option ShameMeta) :=
  if isLicense then
    match page.original_name, page.official_license_text with
    | some license_name, some license_text =>
      if license_name = "" ∨ license_text = "" then (st, .ok none)
      else
        match lookupA (shameUpdate st license_name license_text).totals
            license_name,
          lookupA (shameUpdate st license_name license_text).ratios
            license_name with
        | some tot, some rat =>
          (sort_all (shameUpdate st license_name license_text),
            .ok (some
              { shame_counts :=
                  (lookupA (shameUpdate st license_name
                    license_text).shame_counts license_name).getD []
                shame_total := tot
                shame_ratio := rat }))
        | _, _ =>
          (shameUpdate st license_name license_text,
            .error (.keyError license_name))
    | _, _ => (st, .ok none)
  else (st, .ok none)

theorem lookupA_addA (l : List (String × Nat)) (w : String) (c : Nat)
    (w' : String) :
    lookupA (addA l w c) w' =
      if w' = w then some ((lookupA l w').getD 0 + c) else lookupA l w' := by
  induction l with
  | nil =>
    by_cases h : w' = w
    · subst h
      simp [addA, lookupA]
    · have h2 : ¬ w = w' := fun hh => h hh.symm
      simp [addA, lookupA, h, h2]
  | cons kv rest ih =>
    obtain ⟨k, v⟩ := kv
    by_cases hk : k = w
    · subst hk
      by_cases h : w' = k
      · subst h
        simp [addA, lookupA]
      · have h2 : ¬ k = w' := fun hh => h hh.symm
        simp [addA, lookupA, h, h2]
    · by_cases hkw : k = w'
      · subst hkw
        simp [addA, lookupA, hk]
      · simp [addA, lookupA, hk, hkw, ih]

theorem lookupNat_addA_le (l : List (String × Nat)) (w : String) (c : Nat)
    (w' : String) : lookupNat l w' ≤ lookupNat (addA l w c) w' := by
  rw [lookupNat, lookupNat, lookupA_addA]
  by_cases h : w' = w
  · rw [if_pos h]
    simp
  · rw [if_neg h]

theorem updateCounter_mono (wc : List (String × Nat)) :
    ∀ l w', lookupNat l w' ≤ lookupNat (updateCounter l wc) w' := by
  induction wc with
  | nil => intro l w'; exact Nat.le_refl _
  | cons kv rest ih =>
    intro l w'
    rw [updateCounter, List.foldl_cons]
    exact Nat.le_trans (lookupNat_addA_le l kv.1 kv.2 w') (ih _ w')

theorem lookupA_none_iff {α : Type} (l : List (String × α)) (k : String) :
    lookupA l k = none ↔ ¬ k ∈ l.map Prod.fst := by
  induction l with
  | nil => simp [lookupA]
  | cons kv rest ih =>
    obtain ⟨k', v⟩ := kv
    by_cases h : k' = k
    · simp [lookupA, h]
    · have h2 : ¬ k = k' := fun hh => h hh.symm
      simp [lookupA, h, ih, h2]

theorem lookupA_some_mem {α : Type} {l : List (String × α)} {k : String}
    {v : α} (h : lookupA l k = some v) : (k, v) ∈ l := by
  induction l with
  | nil => cases h
  | cons kv rest ih =>
    obtain ⟨k', w⟩ := kv
    by_cases hk : k' = k
    · rw [lookupA, if_pos hk] at h
      cases h
      rw [hk]
      exact List.mem_cons_self _ _
    · rw [lookupA, if_neg hk] at h
      exact List.mem_cons_of_mem _ (ih h)

theorem mem_lookupA {α : Type} {l : List (String × α)} {k : String} {v : α}
    (nd : (l.map Prod.fst).Nodup) (h : (k, v) ∈ l) : lookupA l k = some v := by
  induction l with
  | nil => cases h
  | cons kv rest ih =>
    obtain ⟨k', w⟩ := kv
    rw [List.map_cons, List.nodup_cons] at nd
    rcases List.mem_cons.mp h with h1 | h1
    · cases h1
      rw [lookupA, if_pos rfl]
    · have hk : ¬ k' = k := by
        intro hh
        exact nd.1 (hh ▸ (List.mem_map_of_mem Prod.fst h1 : k ∈ _))
      rw [lookupA, if_neg hk]
      exact ih nd.2 h1

theorem perm_lookupA {α : Type} {l l' : List (String × α)}
    (nd : (l.map Prod.fst).Nodup) (h : l.Perm l') (k : String) :
    lookupA l k = lookupA l' k := by
  have nd' : (l'.map Prod.fst).Nodup := ((h.map Prod.fst).nodup_iff).mp nd
  cases hl : lookupA l k with
  | none =>
    rw [lookupA_none_iff] at hl
    have : ¬ k ∈ l'.map Prod.fst := fun hm =>
      hl ((h.map Prod.fst).mem_iff.mpr hm)
    rw [eq_comm, lookupA_none_iff]
    exact this
  | some v =>
    rw [eq_comm]
    exact mem_lookupA nd' (h.subset (lookupA_some_mem hl))

theorem lookupA_setA_self {α : Type} (l : List (String × α)) (k : String)
    (v : α) : lookupA (setA l k v) k = some v := by
  induction l with
  | nil => simp [setA, lookupA]
  | cons kv rest ih =>
    obtain ⟨k', w⟩ := kv
    by_cases hk : k' = k
    · simp [setA, lookupA, hk]
    · simp [setA, lookupA, hk, ih]

theorem lookupA_setA_other {α : Type} (l : List (String × α)) (k : String)
    (v : α) (k' : String) (h : ¬ k' = k) :
    lookupA (setA l k v) k' = lookupA l k' := by
  induction l with
  | nil =>
    have h2 : ¬ k = k' := fun hh => h hh.symm
    simp [setA, lookupA, h2]
  | cons kv rest ih =>
    obtain ⟨k0, w⟩ := kv
    by_cases hk : k0 = k
    · subst hk
      have h2 : ¬ k0 = k' := fun hh => h (hh.symm)
      simp [setA, lookupA, h2]
    · by_cases hk' : k0 = k'
      · simp [setA, lookupA, hk, hk', h]
      · simp [setA, lookupA, hk, hk', ih]

theorem keys_addA (l : List (String × Nat)) (w : String) (c : Nat) :
    (addA l w c).map Prod.fst =
      if (lookupA l w).isSome then l.map Prod.fst
      else l.map Prod.fst ++ [w] := by
  induction l with
  | nil => simp [addA, lookupA]
  | cons kv rest ih =>
    obtain ⟨k, v⟩ := kv
    by_cases hk : k = w
    · simp [addA, lookupA, hk]
    · simp [addA, lookupA, hk, ih]
      by_cases hs : (lookupA rest w).isSome <;> simp [hs]

theorem keys_setA {α : Type} (l : List (String × α)) (k : String) (v : α) :
    (setA l k v).map Prod.fst =
      if (lookupA l k).isSome then l.map Prod.fst
      else l.map Prod.fst ++ [k] := by
  induction l with
  | nil => simp [setA, lookupA]
  | cons kv rest ih =>
    obtain ⟨k0, w⟩ := kv
    by_cases hk : k0 = k
    · simp [setA, lookupA, hk]
    · simp [setA, lookupA, hk, ih]
      by_cases hs : (lookupA rest k).isSome <;> simp [hs]

theorem nodup_keys_addA {l : List (String × Nat)} {w : String} {c : Nat}
    (nd : (l.map Prod.fst).Nodup) : ((addA l w c).map Prod.fst).Nodup := by
  rw [keys_addA]
  by_cases hs : (lookupA l w).isSome
  · rw [if_pos hs]
    exact nd
  · rw [if_neg hs]
    have hw : ¬ w ∈ l.map Prod.fst := by
      rw [← lookupA_none_iff]
      cases hl : lookupA l w with
      | none => rfl
      | some v => exact absurd (by rw [hl]; rfl) hs
    simp [List.nodup_append, nd, hw]

theorem nodup_keys_setA {α : Type} {l : List (String × α)} {k : String}
    {v : α} (nd : (l.map Prod.fst).Nodup) :
    ((setA l k v).map Prod.fst).Nodup := by
  rw [keys_setA]
  by_cases hs : (lookupA l k).isSome
  · rw [if_pos hs]
    exact nd
  · rw [if_neg hs]
    have hw : ¬ k ∈ l.map Prod.fst := by
      rw [← lookupA_none_iff]
      cases hl : lookupA l k with
      | none => rfl
      | some x => exact absurd (by rw [hl]; rfl) hs
    simp [List.nodup_append, nd, hw]

theorem nodup_keys_updateCounter (wc : List (String × Nat)) :
    ∀ {l : List (String × Nat)}, (l.map Prod.fst).Nodup →
      ((updateCounter l wc).map Prod.fst).Nodup := by
  induction wc with
  | nil => intro l nd; exact nd
  | cons kv rest ih =>
    intro l nd
    rw [updateCounter, List.foldl_cons]
    exact ih (nodup_keys_addA nd)

theorem lookupA_sortDescNat {l : List (String × Nat)}
    (nd : (l.map Prod.fst).Nodup) (k : String) :
    lookupA (sortDescNat l) k = lookupA l k :=
  (perm_lookupA nd (List.mergeSort_perm l _).symm k).symm

theorem lookupA_map_val {α β : Type} (f : α → β) (l : List (String × α))
    (k : String) :
    lookupA (l.map fun p => (p.1, f p.2)) k = (lookupA l k).map f := by
  induction l with
  | nil => simp [lookupA]
  | cons kv rest ih =>
    obtain ⟨k0, v⟩ := kv
    by_cases hk : k0 = k
    · simp [lookupA, hk]
    · simp [lookupA, hk, ih]


theorem shameUpdate_total_mono (st : ShameState) (n t : String) (w : String) :
    lookupNat st.total_counts w ≤
      lookupNat (shameUpdate st n t).total_counts w := by
  rw [shameUpdate]
  generalize shameWC st t = wc
  split
  · exact Nat.le_refl _
  · exact updateCounter_mono wc st.total_counts w

theorem shameUpdate_total_nodup {st : ShameState} (n t : String)
    (nd : (st.total_counts.map Prod.fst).Nodup) :
    ((shameUpdate st n t).total_counts.map Prod.fst).Nodup := by
  rw [shameUpdate]
  generalize shameWC st t = wc
  split
  · exact nd
  · exact nodup_keys_updateCounter wc nd

theorem shameUpdate_shame_lookup (st : ShameState) (n t : String)
    (name : String) {cs : List (String × Nat)}
    (h : lookupA st.shame_counts name = some cs) :
    ∃ cs2, lookupA (shameUpdate st n t).shame_counts name = some cs2 ∧
      (¬ cs = [] → ¬ cs2 = []) := by
  rw [shameUpdate]
  generalize shameWC st t = wc
  split
  · exact ⟨cs, h, fun hh => hh⟩
  next he =>
    by_cases hn : name = n
    · subst hn
      refine ⟨wc, lookupA_setA_self _ _ _, fun _ hnil => ?_⟩
      rw [hnil] at he
      exact he rfl
    · exact ⟨cs, by rw [lookupA_setA_other _ _ _ _ hn]; exact h,
        fun hh => hh⟩

theorem sortDescNat_ne_nil {l : List (String × Nat)} (h : ¬ l = []) :
    ¬ sortDescNat l = [] := by
  intro hs
  have hp := List.mergeSort_perm l fun a b => decide (b.2 ≤ a.2)
  rw [sortDescNat] at hs
  rw [hs] at hp
  exact h hp.nil_eq.symm

theorem on_page_markdown_not_license (st : ShameState) (page : ShamePage) :
    on_page_markdown st false page = (st, .ok none) := rfl

theorem on_page_markdown_no_name (st : ShameState) (ot : Option String) :
    on_page_markdown st true ⟨none, ot⟩ = (st, .ok none) := rfl

theorem on_page_markdown_no_text (st : ShameState) (n : String) :
    on_page_markdown st true ⟨some n, none⟩ = (st, .ok none) := rfl

theorem on_page_markdown_main (st : ShameState) (n t : String) :
    on_page_markdown st true ⟨some n, some t⟩ =
      (if n = "" ∨ t = "" then (st, .ok none)
       else
         match lookupA (shameUpdate st n t).totals n,
             lookupA (shameUpdate st n t).ratios n with
         | some tot, some rat =>
           (sort_all (shameUpdate st n t),
             .ok (some
               { shame_counts :=
                   (lookupA (shameUpdate st n t).shame_counts n).getD []
                 shame_total := tot
                 shame_ratio := rat }))
         | _, _ => (shameUpdate st n t, .error (.keyError n))) := rfl

/-- The state after one on_page_markdown call: unchanged, updated, or
updated then sorted. -/
theorem on_page_markdown_state (st : ShameState) (isLicense : Bool)
    (page : ShamePage) :
    (on_page_markdown st isLicense page).1 = st ∨
    (∃ n t, (on_page_markdown st isLicense page).1 = shameUpdate st n t) ∨
    (∃ n t, (on_page_markdown st isLicense page).1 =
      sort_all (shameUpdate st n t)) := by
  obtain ⟨on0, ot0⟩ := page
  cases isLicense with
  | false => exact Or.inl (by rw [on_page_markdown_not_license])
  | true =>
    cases on0 with
    | none => exact Or.inl (by rw [on_page_markdown_no_name])
    | some n =>
      cases ot0 with
      | none => exact Or.inl (by rw [on_page_markdown_no_text])
      | some t =>
        rw [on_page_markdown_main]
        by_cases hb : n = "" ∨ t = ""
        · rw [if_pos hb]
          exact Or.inl rfl
        · rw [if_neg hb]
          generalize hsu : shameUpdate st n t = stu
          cases h1 : lookupA stu.totals n with
          | none =>
            simp only [h1]
            exact Or.inr (Or.inl ⟨n, t, hsu.symm⟩)
          | some tot =>
            cases h2 : lookupA stu.ratios n with
            | none =>
              simp only [h1, h2]
              exact Or.inr (Or.inl ⟨n, t, hsu.symm⟩)
            | some rat =>
              simp only [h1, h2]
              exact Or.inr (Or.inr ⟨n, t, by rw [hsu]⟩)

theorem sort_all_total_lookup {st : ShameState}
    (ht : (st.total_counts.map Prod.fst).Nodup) (w : String) :
    lookupA (sort_all st).total_counts w = lookupA st.total_counts w := by
  show lookupA (sortDescNat st.total_counts) w = _
  exact lookupA_sortDescNat ht w

theorem sort_all_shame_lookup (st : ShameState) (name : String) :
    lookupA (sort_all st).shame_counts name =
      (lookupA st.shame_counts name).map sortDescNat := by
  show lookupA (st.shame_counts.map fun p => (p.1, sortDescNat p.2)) name = _
  exact lookupA_map_val _ _ _

/-- C9 (confirmed): within one build process the counters only accumulate.
One on_page_markdown call never decreases any word's aggregate
total_counts value and never removes or empties a per-license counter
(overwriting is always with a non-empty counter); sorting alone preserves
every aggregate lookup and every per-license entry. -/
theorem C9_counters_accumulate (st : ShameState) (isLicense : Bool)
    (page : ShamePage)
    (ht : (st.total_counts.map Prod.fst).Nodup) :
    (∀ w, lookupNat st.total_counts w ≤
      lookupNat (on_page_markdown st isLicense page).1.total_counts w) ∧
    (∀ name cs, lookupA st.shame_counts name = some cs →
      ∃ cs2,
        lookupA (on_page_markdown st isLicense page).1.shame_counts name =
          some cs2 ∧ (¬ cs = [] → ¬ cs2 = [])) ∧
    (∀ w, lookupA (sort_all st).total_counts w = lookupA st.total_counts w) ∧
    (∀ name, (lookupA (sort_all st).shame_counts name).isSome =
      (lookupA st.shame_counts name).isSome) := by
  refine ⟨?_, ?_, fun w => sort_all_total_lookup ht w, fun name => ?_⟩
  · intro w
    rcases on_page_markdown_state st isLicense page with
      hst | ⟨n, t, hst⟩ | ⟨n, t, hst⟩
    · rw [hst]
    · rw [hst]
      exact shameUpdate_total_mono st n t w
    · rw [hst]
      simp only [lookupNat]
      rw [sort_all_total_lookup (shameUpdate_total_nodup n t ht) w]
      exact shameUpdate_total_mono st n t w
  · intro name cs h
    rcases on_page_markdown_state st isLicense page with
      hst | ⟨n, t, hst⟩ | ⟨n, t, hst⟩
    · exact ⟨cs, by rw [hst]; exact h, fun hh => hh⟩
    · rw [hst]
      exact shameUpdate_shame_lookup st n t name h
    · obtain ⟨cs1, hcs1, hne1⟩ := shameUpdate_shame_lookup st n t name h
      refine ⟨sortDescNat cs1, ?_, fun hcs => sortDescNat_ne_nil (hne1 hcs)⟩
      rw [hst, sort_all_shame_lookup, hcs1]
      rfl
  · rw [sort_all_shame_lookup]
    cases lookupA st.shame_counts name <;> rfl

/-- A concrete counter state after one earlier page. -/
def stC9 : ShameState :=
  { shame_map := [("corporation", "company"), ("shall", "will")]
    shame_counts := [("MIT", [("shall", 2)])]
    total_counts := [("shall", 2)]
    ratios := [("MIT", (20 : ℚ))]
    totals := [("MIT", 2)] }

def pageC9 : ShamePage :=
  { original_name := some "Apache"
    official_license_text := some "The **Corporation** shall not sue." }

/-- C9 witness: the accumulation theorem at a concrete state and page. -/
theorem C9_counters_accumulate_witness :
    (∀ w, lookupNat stC9.total_counts w ≤
      lookupNat (on_page_markdown stC9 true pageC9).1.total_counts w) ∧
    (∀ name cs, lookupA stC9.shame_counts name = some cs →
      ∃ cs2,
        lookupA (on_page_markdown stC9 true pageC9).1.shame_counts name =
          some cs2 ∧ (¬ cs = [] → ¬ cs2 = [])) ∧
    (∀ w, lookupA (sort_all stC9).total_counts w =
      lookupA stC9.total_counts w) ∧
    (∀ name, (lookupA (sort_all stC9).shame_counts name).isSome =
      (lookupA stC9.shame_counts name).isSome) :=
  C9_counters_accumulate stC9 true pageC9 (by decide)

theorem shameUpdate_of_empty {st : ShameState} {t : String}
    (h : (filteredWords st t).filter (isShame st) = []) (n : String) :
    shameUpdate st n t = st := by
  have hwc : shameWC st t = [] := by rw [shameWC, h]; rfl
  rw [shameUpdate, hwc]
  rfl

/-- C10 (amended): when a license page has non-empty original_name and
official_license_text, its text contains no shame-map word after stopword
filtering, and the license has no existing totals entry, on_page_markdown
raises KeyError at the page.meta.update read of shamer.totals and leaves
every counter exactly as it was (sort_all is never reached). -/
theorem C10_missing_totals_keyerror (st : ShameState) (page : ShamePage)
    (n t : String)
    (hn : page.original_name = some n) (hne : ¬ n = "")
    (ht : page.official_license_text = some t) (hte : ¬ t = "")
    (hwc : (filteredWords st t).filter (isShame st) = [])
    (htot : lookupA st.totals n = none) :
    on_page_markdown st true page = (st, .error (.keyError n)) := by
  obtain ⟨on0, ot0⟩ := page
  have hn' : on0 = some n := hn
  have ht' : ot0 = some t := ht
  subst hn'
  subst ht'
  rw [on_page_markdown_main, if_neg (fun hb => hb.elim hne hte),
    shameUpdate_of_empty hwc n]
  simp only [htot]

/-- A state in which license MIT has already been counted. -/
def stC10 : ShameState :=
  { shame_map := [("corporation", "company")]
    shame_counts := [("MIT", [("corporation", 3)])]
    total_counts := [("corporation", 3)]
    ratios := [("MIT", (30 : ℚ))]
    totals := [("MIT", 3)] }

/-- A further MIT page whose text contains no shame word. -/
def pageC10 : ShamePage :=
  { original_name := some "MIT", official_license_text := some "Be kind." }

/-- C10 counterexample: a license page with no shame-word occurrence does
NOT raise a KeyError when the license already has totals and ratios
entries from an earlier call; the metadata update succeeds with the stale
entries. -/
theorem C10_keyerror_counterexample :
    (on_page_markdown stC10 true pageC10).2 =
      .ok (some { shame_counts := [("corporation", 3)]
                  shame_total := 3
                  shame_ratio := 30 }) := rfl

/-- An empty counter state: no license has been counted yet. -/
def stC10w : ShameState :=
  { shame_map := [("corporation", "company")]
    shame_counts := []
    total_counts := []
    ratios := []
    totals := [] }

def pageC10w : ShamePage :=
  { original_name := some "Foo", official_license_text := some "Be kind." }

/-- C10 witness: the amended theorem at a concrete fresh state. -/
theorem C10_missing_totals_keyerror_witness :
    on_page_markdown stC10w true pageC10w =
      (stC10w, .error (.keyError "Foo")) :=
  C10_missing_totals_keyerror stC10w pageC10w "Foo" "Be kind." rfl
    (by decide) rfl (by decide) (by decide) rfl
